import Mathlib

set_option linter.unusedVariables false
set_option maxRecDepth 100000

/-!
Verification of the AWEL free-text transcript parser
(`src/aicb/data_prep/awel_reader.py`) and its data model
(`src/aicb/data_prep/models.py`).

The parser is embedded shallowly: the two regular expressions of
`_parse_conversation` and CPython's `datetime.strptime` for the format
`"%d.%m.%Y %H:%M"` are modelled as executable functions on `List Char`,
with Python's leftmost-match / greedy-with-backtracking semantics resolved
deterministically (each resolution is justified in the comments of the
corresponding definition).  All character classes are the ASCII fragments of
Python's Unicode-aware classes; every input appearing in the claims is ASCII.
-/

namespace Aicb

/-- Python regex class `\s` (ASCII fragment): space, TAB, LF, CR, VT, FF. -/
def isSpace (c : Char) : Bool :=
  c = ' ' || c = '\t' || c = '\n' || c = '\r' || c = '\x0b' || c = '\x0c'

/-- Python regex class `\d` (ASCII fragment): decimal digits. -/
def isDigitC (c : Char) : Bool :=
  '0' ≤ c && c ≤ '9'

/-- Python regex class `[\d.]`. -/
def isDigitDot (c : Char) : Bool :=
  isDigitC c || c = '.'

/-- Numeric value of a decimal digit character. -/
def digVal (c : Char) : Nat := c.toNat - 48

/-- Python `str.strip()` on a list of characters (ASCII whitespace). -/
def stripChars (l : List Char) : List Char :=
  ((l.dropWhile isSpace).reverse.dropWhile isSpace).reverse

/-- Match a literal string at the head of `l`, returning the remainder. -/
def dropLit : List Char → List Char → Option (List Char)
  | [], l => some l
  | _ :: _, [] => none
  | c :: cs, x :: xs => if x = c then dropLit cs xs else none

/-- A `datetime.datetime` value at the minute resolution used throughout the
reader. -/
structure DateTime where
  year : Nat
  month : Nat
  day : Nat
  hour : Nat
  minute : Nat
deriving DecidableEq, Repr

/-!
## `datetime.strptime(s, "%d.%m.%Y %H:%M")`

CPython's `_strptime.TimeRE` compiles the directives to
`%d ↦ (3[01]|[12]\d|0[1-9]|[1-9])`, `%m ↦ (1[0-2]|0[1-9]|[1-9])`,
`%Y ↦ (\d\d\d\d)`, `%H ↦ (2[0-3]|[0-1]\d|\d)`, `%M ↦ ([0-5]\d|\d)`,
joins them with the literal characters of the format into one regex, matches
it at position 0, and raises `ValueError` if the match fails or does not
consume the whole string ("unconverted data remains").  Each alternation
below lists its candidate matches in the engine's order; `findSome?` over the
candidates with the match continuation implements the engine's backtracking.
-/

/-- Candidate matches of `%d = (3[01]|[12]\d|0[1-9]|[1-9])`, in order. -/
def dayAlt (l : List Char) : List (Nat × List Char) :=
  (match l with
   | c1 :: c2 :: rest =>
     (if c1 = '3' && (c2 = '0' || c2 = '1') then [(30 + digVal c2, rest)] else []) ++
     (if (c1 = '1' || c1 = '2') && isDigitC c2 then [(10 * digVal c1 + digVal c2, rest)] else []) ++
     (if c1 = '0' && (isDigitC c2 && c2 ≠ '0') then [(digVal c2, rest)] else [])
   | _ => []) ++
  (match l with
   | c1 :: rest => if isDigitC c1 && c1 ≠ '0' then [(digVal c1, rest)] else []
   | _ => [])

/-- Candidate matches of `%m = (1[0-2]|0[1-9]|[1-9])`, in order. -/
def monthAlt (l : List Char) : List (Nat × List Char) :=
  (match l with
   | c1 :: c2 :: rest =>
     (if c1 = '1' && (c2 = '0' || c2 = '1' || c2 = '2') then [(10 + digVal c2, rest)] else []) ++
     (if c1 = '0' && (isDigitC c2 && c2 ≠ '0') then [(digVal c2, rest)] else [])
   | _ => []) ++
  (match l with
   | c1 :: rest => if isDigitC c1 && c1 ≠ '0' then [(digVal c1, rest)] else []
   | _ => [])

/-- Candidate matches of `%H = (2[0-3]|[0-1]\d|\d)`, in order. -/
def hourAlt (l : List Char) : List (Nat × List Char) :=
  (match l with
   | c1 :: c2 :: rest =>
     (if c1 = '2' && (c2 = '0' || c2 = '1' || c2 = '2' || c2 = '3') then
        [(20 + digVal c2, rest)] else []) ++
     (if (c1 = '0' || c1 = '1') && isDigitC c2 then [(10 * digVal c1 + digVal c2, rest)] else [])
   | _ => []) ++
  (match l with
   | c1 :: rest => if isDigitC c1 then [(digVal c1, rest)] else []
   | _ => [])

/-- Candidate matches of `%M = ([0-5]\d|\d)`, in order. -/
def minAlt (l : List Char) : List (Nat × List Char) :=
  (match l with
   | c1 :: c2 :: rest =>
     if ('0' ≤ c1 && c1 ≤ '5') && isDigitC c2 then [(10 * digVal c1 + digVal c2, rest)] else []
   | _ => []) ++
  (match l with
   | c1 :: rest => if isDigitC c1 then [(digVal c1, rest)] else []
   | _ => [])

/-- `%Y = (\d\d\d\d)`: exactly four digits. -/
def year4 (l : List Char) : Option (Nat × List Char) :=
  match l with
  | a :: b :: c :: d :: rest =>
    if isDigitC a && isDigitC b && isDigitC c && isDigitC d then
      some (1000 * digVal a + 100 * digVal b + 10 * digVal c + digVal d, rest)
    else none
  | _ => none

/-- Match `%H:%M` against exactly the whole of `l` (regex backtracking: the
first alternative whose continuation succeeds wins). -/
def parseHM (l : List Char) : Option (Nat × Nat) :=
  (hourAlt l).findSome? fun p =>
    match p.2 with
    | c :: r2 =>
      if c = ':' then (minAlt r2).findSome? fun q => if q.2 = [] then some (p.1, q.1) else none
      else none
    | [] => none

/-- The continuation of `%d.%m.%Y %H:%M` after the second literal dot:
`%Y`, the literal space, then `%H:%M` to the end. -/
def dmyTail (dd mm : Nat) (r4 : List Char) : Option DateTime :=
  match year4 r4 with
  | some (y, r5) =>
    match r5 with
    | c3 :: r6 => if c3 = ' ' then (parseHM r6).map fun hm => ⟨y, mm, dd, hm.1, hm.2⟩ else none
    | [] => none
  | none => none

/-- The continuation after the first literal dot: `%m.%Y %H:%M` to the end. -/
def dmTail (dd : Nat) (r2 : List Char) : Option DateTime :=
  (monthAlt r2).findSome? fun q =>
    match q.2 with
    | c2 :: r4 => if c2 = '.' then dmyTail dd q.1 r4 else none
    | [] => none

/-- Match `%d.%m.%Y %H:%M` against exactly the whole of `l`, with the
engine's leftmost-alternative-first backtracking. -/
def parseDMYHM (l : List Char) : Option DateTime :=
  (dayAlt l).findSome? fun p =>
    match p.2 with
    | c1 :: r2 => if c1 = '.' then dmTail p.1 r2 else none
    | [] => none

/-- The year stage of the date-only match `%d.%m.%Y` (anchored at the end of
the string): used to state that the date fields of a `%d.%m.%Y %H:%M` match
depend only on the date part of the input. -/
def dateYearTail (dd mm : Nat) (r4 : List Char) : Option (Nat × Nat × Nat) :=
  match year4 r4 with
  | some (y, r5) => if r5 = [] then some (dd, mm, y) else none
  | none => none

/-- The month stage of the date-only match `%d.%m.%Y`. -/
def dateMonthTail (dd : Nat) (r2 : List Char) : Option (Nat × Nat × Nat) :=
  (monthAlt r2).findSome? fun q =>
    match q.2 with
    | c2 :: r4 => if c2 = '.' then dateYearTail dd q.1 r4 else none
    | [] => none

/-- The date part `%d.%m.%Y` matched against exactly the whole of `l`,
giving (day, month, year) — the same alternation structure as `parseDMYHM`,
anchored at the end of the string instead of at the literal space. -/
def dateOnly (l : List Char) : Option (Nat × Nat × Nat) :=
  (dayAlt l).findSome? fun p =>
    match p.2 with
    | c1 :: r2 => if c1 = '.' then dateMonthTail p.1 r2 else none
    | [] => none

/-- Gregorian leap year, as Python's `datetime`. -/
def isLeap (y : Nat) : Bool := y % 4 = 0 && (y % 100 ≠ 0 || y % 400 = 0)

/-- Days in a month, as Python `datetime` uses for date validation. -/
def daysInMonth (y m : Nat) : Nat :=
  if m = 2 then (if isLeap y then 29 else 28)
  else if m = 4 || m = 6 || m = 9 || m = 11 then 30
  else 31

/-- `datetime.strptime(l, "%d.%m.%Y %H:%M")`: the format regex must consume
all of `l` and the fields must form a valid `datetime` (the regex already
forces day 1–31, month 1–12, hour ≤ 23, minute ≤ 59 and a 4-digit year;
the `datetime` constructor additionally rejects year 0 and a day beyond the
month's length).  `none` wherever Python raises `ValueError`. -/
def strptimeDMYHM (l : List Char) : Option DateTime :=
  match parseDMYHM l with
  | some dt => if 1 ≤ dt.year && dt.day ≤ daysInMonth dt.year dt.month then some dt else none
  | none => none

/-!
## Header extraction

`re.search(r"Date/time:\s*([\d.]+),\s*(\d{2}:\d{2})", text)`
(`awel_reader.py` line 166).
-/

/-- The part of a header-regex attempt after the literal and the first
greedy `\s*`: greedy `[\d.]+` — which must be followed by the literal `,`,
and no shorter match of `[\d.]+` can help since `[\d.]` never matches `,` —
then greedy `\s*` (disjoint from `\d`), then `\d{2}:\d{2}`.  Returns the two
capture groups. -/
def headerAfterLit (l2 : List Char) : Option (List Char × List Char) :=
  if l2.takeWhile isDigitDot = [] then none
  else
    match l2.drop (l2.takeWhile isDigitDot).length with
    | c0 :: l3 =>
      if c0 = ',' then
        match l3.dropWhile isSpace with
        | a :: b :: c :: d :: e :: _ =>
          if isDigitC a && isDigitC b && (c = ':') && isDigitC d && isDigitC e then
            some (l2.takeWhile isDigitDot, [a, b, ':', d, e])
          else none
        | _ => none
      else none
    | [] => none

/-- One attempt of the header regex at a fixed start position (see the
comment on `headerAfterLit` for the part after the literal and `\s*`). -/
def matchHeaderAt (l : List Char) : Option (List Char × List Char) :=
  match dropLit ("Date/time:".toList) l with
  | none => none
  | some l1 => headerAfterLit (l1.dropWhile isSpace)

/-- `re.search`: try every start position, left to right. -/
def headerSearch : List Char → Option (List Char × List Char)
  | [] => none
  | c :: t =>
    match matchHeaderAt (c :: t) with
    | some r => some r
    | none => headerSearch t

/-!
## Message extraction

`re.compile(r"(\d{2}:\d{2})\s+([^:]+):\s+([^\n]+(?:\n(?!\d{2}:\d{2}).*)*)")`
iterated with `finditer` (`awel_reader.py` lines 175–177).
-/

/-- The token `\d{2}:\d{2}`, used to start a message and as the negative
lookahead bounding multi-line content.  None of `\d`, `:` matches a newline,
so the token cannot span lines. -/
def startsDD (l : List Char) : Bool :=
  match l with
  | a :: b :: c :: d :: e :: _ =>
    isDigitC a && isDigitC b && (c = ':') && isDigitC d && isDigitC e
  | _ => false

/-- The content continuation `(?:\n(?!\d{2}:\d{2}).*)*`: greedily consume
`\n` + rest-of-line repetitions while the line after the newline does not
begin with a `\d{2}:\d{2}` token (`.` does not match `\n`).  Returns
(characters consumed into the content group, remainder).  `fuel` only bounds
the recursion; any `fuel ≥ l.length` gives the fixpoint, as every repetition
consumes at least one character. -/
def contStar : Nat → List Char → List Char × List Char
  | 0, l => ([], l)
  | fuel + 1, l =>
    match l with
    | c :: t =>
      if c = '\n' then
        if startsDD t then ([], l)
        else
          let line := t.takeWhile (fun x => x ≠ '\n')
          let r := contStar fuel (t.drop line.length)
          ('\n' :: (line ++ r.1), r.2)
      else ([], l)
    | [] => ([], l)

/-- The three capture groups of one message match. -/
structure RawMsg where
  time : List Char
  sender : List Char
  content : List Char
deriving DecidableEq, Repr

/-- One attempt of the message regex at a fixed start position, with the
engine's backtracking resolved deterministically:

* `\s+` before the sender is greedy.  `[^:]` also matches whitespace, so the
  only relevant backtracking is when the maximal whitespace run is followed
  directly by `:`: the engine then hands the last whitespace character back
  to `[^:]+` (longest `\s+` is retried first, so exactly one character is
  donated; with only one whitespace character available the attempt fails).
* `[^:]+` greedy necessarily ends at the first `:` of the remainder: a
  shorter run would put a non-`:` character where `:` is required, and the
  run cannot cross a `:`.  If there is no `:` at all the attempt fails.
  Note the split point between `\s+` and `[^:]+` never affects what follows
  the `:`, so later failures cannot be repaired by re-splitting here.
* `\s+` after the `:` is greedy; `[^\n]+` then starts at the first
  non-whitespace character, which in particular is not a newline.  If the
  string ends inside this whitespace run, the engine backtracks: content
  becomes the suffix of the run starting at its last non-newline character
  (largest donation is tried first, and `[^\n]+` must start non-newline);
  the donated suffix is then wholly consumed by `[^\n]+(?:\n(?!\d{2}:\d{2}).*)*`
  since it contains only whitespace.
* the trailing `(?:\n(?!\d{2}:\d{2}).*)*` is `contStar`.

Returns the captured groups and the remainder of the text after the match
(where `finditer` resumes; matches are never empty). -/
def matchMsgAt (l : List Char) : Option (RawMsg × List Char) :=
  match l with
  | h1 :: h2 :: c0 :: m1 :: m2 :: rest =>
    if isDigitC h1 && isDigitC h2 && (c0 = ':') && isDigitC m1 && isDigitC m2 then
      let time := [h1, h2, ':', m1, m2]
      let w := rest.takeWhile isSpace
      if w = [] then none
      else
        let l1 := rest.drop w.length
        let r := l1.takeWhile (fun c => c ≠ ':')
        match l1.drop r.length with
        | c1 :: l2 =>
          if c1 = ':' then
            if r = [] && w.length < 2 then none
            else
              let sender := if r = [] then w.drop (w.length - 1) else r
              let w2 := l2.takeWhile isSpace
              if w2 = [] then none
              else
                match l2.drop w2.length with
                | [] =>
                  let k := (w2.reverse.takeWhile (fun x => x = '\n')).length
                  if k + 2 ≤ w2.length then
                    some (⟨time, sender, w2.drop (w2.length - k - 1)⟩, [])
                  else none
                | x :: l3 =>
                  let seg := (x :: l3).takeWhile (fun c => c ≠ '\n')
                  let st := contStar (x :: l3).length ((x :: l3).drop seg.length)
                  some (⟨time, sender, seg ++ st.1⟩, st.2)
          else none
        | [] => none
    else none
  | _ => none

/-- `finditer`: scan start positions left to right; a successful match
consumes its matched region and the scan resumes right after it.  Any
`fuel ≥ l.length` gives the fixpoint. -/
def scanMessages : Nat → List Char → List RawMsg
  | 0, _ => []
  | fuel + 1, l =>
    match matchMsgAt l with
    | some (m, rest) => m :: scanMessages fuel rest
    | none =>
      match l with
      | [] => []
      | _ :: t => scanMessages fuel t

/-- All message matches of the text, as `finditer` yields them. -/
def msgScan (l : List Char) : List RawMsg := scanMessages l.length l

/-!
## Data model (`models.py`) and `_parse_conversation`
-/

/-- `models.Message`. -/
structure Message where
  timestamp : DateTime
  role : String
  content : String
deriving DecidableEq, Repr

/-- `models.Metadata`. -/
structure Metadata where
  timestamp : DateTime
  source : String
deriving DecidableEq, Repr

/-- `models.Conversation`. -/
structure Conversation where
  id : String
  topic : String
  messages : List Message
  raw : String
  metadata : Metadata
deriving DecidableEq, Repr

/-- `awel_reader.py` line 184:
`"operator" if role.strip() in ["Awel", "Awel wachtrij"] else "user"`. -/
def classifyRole (sender : List Char) : String :=
  if stripChars sender = "Awel".toList || stripChars sender = "Awel wachtrij".toList
  then "operator" else "user"

/-- The loop body over the regex matches: each message's timestamp is
`datetime.strptime(f"{conv_date} {time_str}", "%d.%m.%Y %H:%M")`; a
`ValueError` there aborts the whole parse (`none`). -/
def buildMessages (convDate : List Char) : List RawMsg → Option (List Message)
  | [] => some []
  | r :: rs =>
    match strptimeDMYHM (convDate ++ ' ' :: r.time) with
    | none => none
    | some dt =>
      match buildMessages convDate rs with
      | none => none
      | some ms =>
        some ({ timestamp := dt, role := classifyRole r.sender,
                content := String.mk (stripChars r.content) } :: ms)

/-- The failure-or-payload core of `_parse_conversation`: the conversation
timestamp and message list (everything except the freshly drawn `uuid4`). -/
def parseParts (text : String) : Option (DateTime × List Message) :=
  match headerSearch text.toList with
  | none => none
  | some (convDate, convTime) =>
    match strptimeDMYHM (convDate ++ ' ' :: convTime) with
    | none => none
    | some convDT =>
      match buildMessages convDate (msgScan text.toList) with
      | none => none
      | some msgs => some (convDT, msgs)

/-- `AwelReader._parse_conversation(text, source)`.  The id produced by
`str(uuid.uuid4())` is modelled as the extra input `uuid` — the only
nondeterministic ingredient of the function.  `none` wherever Python
raises. -/
def parse_conversation (text : String) (source : String) (uuid : String) :
    Option Conversation :=
  (parseParts text).map fun p =>
    { id := uuid, topic := "Conflict with friends", messages := p.2,
      raw := text, metadata := { timestamp := p.1, source := source } }

/-!
## Batch driver (`_parse_conversation_list`) and statistics
-/

/-- `AwelReader._parse_conversation_list(data)`: iterate with `enumerate`,
append successes, and on exception only log — the `raise` in the `except`
branch is commented out (line 232), so no failure ever propagates.  The log
is modelled as the list of failing indices, in order; `ids i` models the
`uuid4` drawn for item `i`. -/
def parseListAux (ids : Nat → String) : Nat → List String → List Conversation × List Nat
  | _, [] => ([], [])
  | i, t :: ts =>
    let rest := parseListAux ids (i + 1) ts
    match parse_conversation t "awel_chat" (ids i) with
    | some c => (c :: rest.1, rest.2)
    | none => (rest.1, i :: rest.2)

/-- `_parse_conversation_list` as invoked on a reader constructed with a
given `validate_data` flag: the flag is stored by `__init__` but never
consulted by the method. -/
def parse_conversation_list (validate_data : Bool) (ids : Nat → String)
    (texts : List String) : List Conversation × List Nat :=
  parseListAux ids 0 texts

/-- Code-point comparison of strings, as Python `sorted` on `str`. -/
def strLt (a b : List Char) : Bool :=
  match a, b with
  | [], [] => false
  | [], _ :: _ => true
  | _ :: _, [] => false
  | x :: xs, y :: ys => if x = y then strLt xs ys else decide (x.toNat < y.toNat)

/-- Insertion into a sorted list of strings. -/
def insertStr (s : String) : List String → List String
  | [] => [s]
  | x :: xs => if strLt s.toList x.toList then s :: x :: xs else x :: insertStr s xs

/-- Insertion sort of strings. -/
def sortStrs : List String → List String
  | [] => []
  | x :: xs => insertStr x (sortStrs xs)

/-- `get_topics`: `sorted(list(set(conv.topic for conv in conversations)))`. -/
def get_topics (convs : List Conversation) : List String :=
  sortStrs ((convs.map (fun c => c.topic)).dedup)

/-- Days before month `m` in year `y`. -/
def daysBeforeMonth (y m : Nat) : Nat :=
  (List.range (m - 1)).foldl (fun acc i => acc + daysInMonth y (i + 1)) 0

/-- A minute count for a `datetime` (proleptic Gregorian ordinal, as
`datetime.toordinal`), such that
`(end - start).total_seconds() / 60 = toMinutes end - toMinutes start`
exactly, for the minute-resolution datetimes the reader produces. -/
def toMinutes (dt : DateTime) : Int :=
  let y1 : Int := (dt.year : Int) - 1
  let days : Int := 365 * y1 + y1 / 4 - y1 / 100 + y1 / 400
    + (daysBeforeMonth dt.year dt.month : Int) + ((dt.day : Int) - 1)
  1440 * days + 60 * (dt.hour : Int) + (dt.minute : Int)

/-- Duration in minutes between `messages[0]` and `messages[-1]` of a
conversation with at least two messages (`get_statistics` lines 320–324). -/
def convDuration (msgs : List Message) : Option ℚ :=
  match msgs with
  | [] => none
  | m :: ms =>
    if 2 ≤ (m :: ms).length then
      some ((toMinutes (ms.getLastD m).timestamp - toMinutes m.timestamp : Int) : ℚ)
    else none

/-- The dictionary returned by `get_statistics` (the two averages are exact
rationals; Python additionally rounds them to two decimals for display,
which no claim here depends on). -/
structure Stats where
  total_conversations : Nat
  total_messages : Nat
  avg_messages_per_conversation : ℚ
  unique_topics : Nat
  topics : List String
  avg_conversation_length_minutes : ℚ
deriving DecidableEq, Repr

/-- `AwelReader.get_statistics()` over a loaded conversation list: the empty
dict (`none`) for an empty list, otherwise the statistics record, with
`avg_duration = sum(durations) / len(durations) if durations else 0`. -/
def get_statistics (convs : List Conversation) : Option Stats :=
  match convs with
  | [] => none
  | _ :: _ =>
    let durations := convs.filterMap (fun c => convDuration c.messages)
    let topics := get_topics convs
    let total_messages := (convs.map (fun c => c.messages.length)).sum
    some { total_conversations := convs.length,
           total_messages := total_messages,
           avg_messages_per_conversation := (total_messages : ℚ) / (convs.length : ℚ),
           unique_topics := topics.length,
           topics := topics,
           avg_conversation_length_minutes :=
             if durations = [] then 0 else durations.sum / (durations.length : ℚ) }

/-!
## Specification-side definitions

These follow the words of the claims (not the code); they are compared with
the code-derived definitions above.
-/

/-- A header line exactly of the claimed shape
`Date/time: DD.MM.YYYY, HH:MM - HH:MM` starting at this position
(literal label, single spaces, two-digit day/month/hour/minute fields and a
four-digit year). -/
def claimHeaderAt (l : List Char) : Bool :=
  match l with
  | 'D' :: 'a' :: 't' :: 'e' :: '/' :: 't' :: 'i' :: 'm' :: 'e' :: ':' :: ' ' ::
    d1 :: d2 :: '.' :: n1 :: n2 :: '.' :: y1 :: y2 :: y3 :: y4 :: ',' :: ' ' ::
    h1 :: h2 :: ':' :: i1 :: i2 :: ' ' :: '-' :: ' ' :: h3 :: h4 :: ':' :: i3 :: i4 :: _ =>
    isDigitC d1 && isDigitC d2 && isDigitC n1 && isDigitC n2 &&
    isDigitC y1 && isDigitC y2 && isDigitC y3 && isDigitC y4 &&
    isDigitC h1 && isDigitC h2 && isDigitC i1 && isDigitC i2 &&
    isDigitC h3 && isDigitC h4 && isDigitC i3 && isDigitC i4
  | _ => false

/-- Whether a header line matching `Date/time: DD.MM.YYYY, HH:MM - HH:MM`
can be located anywhere in the string (claim C1's failure criterion). -/
def claimHeaderFound : List Char → Bool
  | [] => false
  | c :: t => claimHeaderAt (c :: t) || claimHeaderFound t

/-- Pair every element with its position, starting at `i`. -/
def idxFrom (i : Nat) : List String → List (Nat × String)
  | [] => []
  | t :: ts => (i, t) :: idxFrom (i + 1) ts

/-- The decimal digit character of `n % 10`. -/
def digCh (n : Nat) : Char :=
  match n % 10 with
  | 0 => '0' | 1 => '1' | 2 => '2' | 3 => '3' | 4 => '4'
  | 5 => '5' | 6 => '6' | 7 => '7' | 8 => '8' | _ => '9'

/-- Two-digit rendering of `n < 100` (`HH`, `MM`, `DD`). -/
def dd2 (n : Nat) : List Char := [digCh (n / 10), digCh (n % 10)]

/-- Four-digit rendering of `n < 10000` (`YYYY`). -/
def dd4 (n : Nat) : List Char :=
  [digCh (n / 1000), digCh (n / 100), digCh (n / 10), digCh (n % 10)]

/-- Does the list start with a non-whitespace character? -/
def headNonspace : List Char → Bool
  | [] => false
  | c :: _ => !isSpace c

/-- A structured message unit of claim C3's transcript grammar: an `HH:MM`
time token, a sender label, and content given as its first line plus any
continuation lines. -/
structure MsgSpec where
  hh : Nat
  mm : Nat
  sender : List Char
  line1 : List Char
  more : List (List Char)

/-- Render continuation lines, each preceded by its newline. -/
def joinR (more : List (List Char)) : List Char :=
  (more.map fun l => '\n' :: l).flatten

/-- The rendered content block of a message: first line plus continuation
lines. -/
def renderContent (m : MsgSpec) : List Char :=
  m.line1 ++ joinR m.more

/-- Render one message line: `HH:MM SENDER: CONTENT`. -/
def renderMsg (m : MsgSpec) : List Char :=
  dd2 m.hh ++ ':' :: (dd2 m.mm ++ ' ' :: (m.sender ++ ':' :: ' ' :: renderContent m))

/-- Render the message lines, separated by newlines. -/
def renderMsgs : List MsgSpec → List Char
  | [] => []
  | [m] => renderMsg m
  | m :: m2 :: rest => renderMsg m ++ '\n' :: renderMsgs (m2 :: rest)

/-- Render a well-formed header line `Date/time: DD.MM.YYYY, HH:MM - HH:MM`
followed by the blank separator line. -/
def renderHeader (day mon yr hh mm eh em : Nat) : List Char :=
  "Date/time: ".toList ++ dd2 day ++ '.' :: (dd2 mon ++ '.' :: (dd4 yr ++ ',' :: ' ' ::
    (dd2 hh ++ ':' :: (dd2 mm ++ ' ' :: '-' :: ' ' ::
      (dd2 eh ++ ':' :: (dd2 em ++ ['\n', '\n']))))))

/-- Render a whole transcript: header, blank line, message lines. -/
def renderTranscript (day mon yr hh mm eh em : Nat) (msgs : List MsgSpec) : List Char :=
  renderHeader day mon yr hh mm eh em ++ renderMsgs msgs

/-- Well-formedness of a message unit, following the claim's wording: a
valid `HH:MM` time token, a sender label without a colon (nonempty, on one
line, not starting with whitespace), content starting with a non-whitespace
character on the time line, and continuation lines that do not begin with a
new `HH:MM` token. -/
def MsgWF (m : MsgSpec) : Prop :=
  m.hh ≤ 23 ∧ m.mm ≤ 59 ∧
  headNonspace m.sender = true ∧ (∀ c ∈ m.sender, c ≠ ':' ∧ c ≠ '\n') ∧
  headNonspace m.line1 = true ∧ '\n' ∉ m.line1 ∧
  ∀ l ∈ m.more, '\n' ∉ l ∧ startsDD l = false

/-- The raw regex match that the message regex produces for a rendered
message unit. -/
def rawOf (m : MsgSpec) : RawMsg :=
  ⟨[digCh (m.hh / 10), digCh (m.hh % 10), ':', digCh (m.mm / 10), digCh (m.mm % 10)],
   m.sender, renderContent m⟩

/-- The `Message` the parser is expected to produce for a rendered message
unit of a transcript with the given header date. -/
def expectedMsg (day mon yr : Nat) (m : MsgSpec) : Message :=
  { timestamp := ⟨yr, mon, day, m.hh, m.mm⟩,
    role := classifyRole m.sender,
    content := String.mk (stripChars (renderContent m)) }

/-- The claim's duration of a conversation: delta from the first to the last
message in sequence order, in minutes. -/
def seqDelta (msgs : List Message) : ℚ :=
  match msgs with
  | [] => 0
  | m :: ms => ((toMinutes (ms.getLastD m).timestamp - toMinutes m.timestamp : Int) : ℚ)

/-- The claim's mean conversation duration: averaged only over conversations
with at least two messages, and 0 when no conversation qualifies. -/
def claimMeanDuration (convs : List Conversation) : ℚ :=
  let ds := (convs.filter fun c => 2 ≤ c.messages.length).map fun c => seqDelta c.messages
  if ds = [] then 0 else ds.sum / (ds.length : ℚ)

/-!
## Concrete sample data (used by examples and witnesses)
-/

/-- The running example of the spec (`spec.md` §8). -/
def exampleText : String :=
  "Date/time: 10.02.2023, 17:22 - 17:43\n\n17:22 Awel wachtrij: Hallo!\n17:26 Anna: hoi"

/-- The message list the spec expects for `exampleText`. -/
def exampleMessages : List Message :=
  [ { timestamp := ⟨2023, 2, 10, 17, 22⟩, role := "operator", content := "Hallo!" },
    { timestamp := ⟨2023, 2, 10, 17, 26⟩, role := "user", content := "hoi" } ]

/-- The Conversation the spec expects for `exampleText`, for a given id. -/
def exampleConv (uuid : String) : Conversation :=
  { id := uuid, topic := "Conflict with friends", messages := exampleMessages,
    raw := exampleText,
    metadata := { timestamp := ⟨2023, 2, 10, 17, 22⟩, source := "awel_chat" } }

/-- A conversation whose two messages are not in chronological order
(first 10:00, last 09:30). -/
def sampleConv1 : Conversation :=
  { id := "c1", topic := "t", raw := "",
    messages := [ { timestamp := ⟨2023, 2, 10, 10, 0⟩, role := "user", content := "a" },
                  { timestamp := ⟨2023, 2, 10, 9, 30⟩, role := "user", content := "b" } ],
    metadata := { timestamp := ⟨2023, 2, 10, 10, 0⟩, source := "awel_chat" } }

/-- A single-message conversation (excluded from the duration mean). -/
def sampleConv2 : Conversation :=
  { id := "c2", topic := "t", raw := "",
    messages := [ { timestamp := ⟨2023, 2, 10, 1, 0⟩, role := "user", content := "a" } ],
    metadata := { timestamp := ⟨2023, 2, 10, 1, 0⟩, source := "awel_chat" } }

/-- A transcript with a valid header and no message line. -/
def headerOnlyText : String := "Date/time: 10.02.2023, 17:22 - 17:43\n\nno messages here"

/-- A concrete two-unit message list for exercising the transcript grammar:
the first unit's content spans a continuation line. -/
def c3msgs : List MsgSpec :=
  [⟨17, 26, "Awel wachtrij".toList, "Hallo daar".toList, ["tweede regel".toList]⟩,
   ⟨17, 31, "Anna".toList, "hoi".toList, []⟩]

/-!
## Helper lemmas
-/

/-- `buildMessages` only ever assigns roles through `classifyRole`. -/
lemma buildMessages_role (d : List Char) :
    ∀ rs ms, buildMessages d rs = some ms → ∀ m ∈ ms, ∃ r : RawMsg, m.role = classifyRole r.sender := by
  intro rs
  induction rs with
  | nil => intro ms h m hm; simp [buildMessages] at h; subst h; simp at hm
  | cons r rs ih =>
    intro ms h m hm
    simp only [buildMessages] at h
    rcases h1 : strptimeDMYHM (d ++ ' ' :: r.time) with _ | dt <;> rw [h1] at h
    · exact absurd h (by simp)
    · rcases h2 : buildMessages d rs with _ | ms0 <;> rw [h2] at h
      · exact absurd h (by simp)
      · rcases Option.some.inj h with rfl
        rcases List.mem_cons.mp hm with rfl | hm0
        · exact ⟨r, rfl⟩
        · exact ih ms0 h2 m hm0

/-- Every role `classifyRole` produces is `"operator"` or `"user"`. -/
lemma classifyRole_cases (s : List Char) :
    classifyRole s = "operator" ∨ classifyRole s = "user" := by
  unfold classifyRole
  split <;> simp

/-- The code's duration list equals the claim's filtered-and-mapped one. -/
lemma durations_eq (convs : List Conversation) :
    convs.filterMap (fun c => convDuration c.messages) =
      (convs.filter fun c => 2 ≤ c.messages.length).map fun c => seqDelta c.messages := by
  have key : ∀ x : Conversation,
      convDuration x.messages =
        if 2 ≤ x.messages.length then some (seqDelta x.messages) else none := by
    intro x
    rcases hx : x.messages with _ | ⟨m, ms⟩
    · simp [convDuration]
    · by_cases h2 : 2 ≤ (m :: ms).length <;> simp [convDuration, seqDelta, h2]
  induction convs with
  | nil => rfl
  | cons c cs ih =>
    rw [List.filterMap_cons, List.filter_cons, key c, ih]
    by_cases h2 : 2 ≤ c.messages.length
    · simp [h2]
    · simp [h2]

/-- `parseListAux` computes the in-order successes and the failing indices. -/
lemma parseListAux_eq (ids : Nat → String) :
    ∀ ts i, parseListAux ids i ts =
      ((idxFrom i ts).filterMap (fun p => parse_conversation p.2 "awel_chat" (ids p.1)),
       ((idxFrom i ts).filter fun p =>
          (parse_conversation p.2 "awel_chat" (ids p.1)).isNone).map fun p => p.1) := by
  intro ts
  induction ts with
  | nil => intro i; rfl
  | cons t ts ih =>
    intro i
    simp only [parseListAux, idxFrom, List.filterMap_cons, List.filter_cons, ih (i + 1)]
    rcases h : parse_conversation t "awel_chat" (ids i) with _ | c <;> simp [h]

/-- Successes plus failures tally the batch size. -/
lemma parseListAux_length (ids : Nat → String) :
    ∀ ts i, (parseListAux ids i ts).1.length + (parseListAux ids i ts).2.length = ts.length := by
  intro ts
  induction ts with
  | nil => intro i; rfl
  | cons t ts ih =>
    intro i
    have hih := ih (i + 1)
    simp only [parseListAux]
    rcases h : parse_conversation t "awel_chat" (ids i) with _ | c <;>
      simp [h] <;> omega

/-- `buildMessages` fails exactly when some matched message has a time the
per-message `strptime` rejects. -/
lemma buildMessages_eq_none (d : List Char) (rs : List RawMsg) :
    buildMessages d rs = none ↔ ∃ r ∈ rs, strptimeDMYHM (d ++ ' ' :: r.time) = none := by
  induction rs with
  | nil => simp [buildMessages]
  | cons r rs ih =>
    simp only [buildMessages]
    rcases h1 : strptimeDMYHM (d ++ ' ' :: r.time) with _ | dt
    · constructor
      · intro _
        exact ⟨r, List.mem_cons_self r rs, h1⟩
      · intro _
        rfl
    · rcases h2 : buildMessages d rs with _ | ms
      · constructor
        · intro _
          obtain ⟨r0, hr0, hn⟩ := ih.mp h2
          exact ⟨r0, List.mem_cons_of_mem r hr0, hn⟩
        · intro _
          rfl
      · constructor
        · intro hfalse
          exact absurd hfalse (by simp)
        · rintro ⟨r0, hr0, hn⟩
          rcases List.mem_cons.mp hr0 with rfl | hr0
          · rw [h1] at hn
            exact absurd hn (by simp)
          · have := ih.mpr ⟨r0, hr0, hn⟩
            rw [h2] at this
            exact absurd this (by simp)

/-- Every message of a parsed conversation got its role from `classifyRole`. -/
lemma parse_messages_roles (text source uuid : String) (conv : Conversation)
    (hp : parse_conversation text source uuid = some conv) :
    ∀ m ∈ conv.messages, ∃ r : RawMsg, m.role = classifyRole r.sender := by
  intro m hm
  unfold parse_conversation at hp
  rcases hq : parseParts text with _ | p <;> rw [hq] at hp
  · exact absurd hp (by simp)
  · rcases Option.some.inj hp with rfl
    unfold parseParts at hq
    split at hq
    next => exact absurd hq (by simp)
    next dg tg h1 =>
      split at hq
      next => exact absurd hq (by simp)
      next dt h2 =>
        split at hq
        next => exact absurd hq (by simp)
        next ms h3 =>
          rcases Option.some.inj hq with rfl
          refine buildMessages_role dg _ ms h3 m ?_
          simpa using hm

@[simp] lemma isDigitC_space : isDigitC ' ' = false := by decide

@[simp] lemma isSpace_space : isSpace ' ' = true := by decide

@[simp] lemma isSpace_dash : isSpace '-' = false := by decide

@[simp] lemma isSpace_colonChar : isSpace ':' = false := by decide

@[simp] lemma isSpace_newline : isSpace '\n' = true := by decide

@[simp] lemma isDigitC_newlineChar : isDigitC '\n' = false := by decide

@[simp] lemma isDigitC_colonChar : isDigitC ':' = false := by decide

/-- Pointwise-equal functions give the same `findSome?`. -/
lemma findSome?_congr {α β : Type} {l : List α} {f g : α → Option β}
    (h : ∀ a ∈ l, f a = g a) : l.findSome? f = l.findSome? g := by
  induction l with
  | nil => rfl
  | cons a l ih =>
    rw [List.findSome?_cons, List.findSome?_cons, h a (List.mem_cons_self a l)]
    rcases g a with _ | b
    · exact ih fun x hx => h x (List.mem_cons_of_mem a hx)
    · rfl

/-- `Option.bind` after `findSome?` pushes inside when the success of the
second stage does not depend on its argument. -/
lemma findSome?_bind_of {α β γ : Type} (l : List α) (f : α → Option β) (g : β → Option γ)
    (hg : (∀ b, g b = none) ∨ ∀ b, (g b).isSome = true) :
    (l.findSome? f).bind g = l.findSome? fun a => (f a).bind g := by
  induction l with
  | nil => rfl
  | cons a l ih =>
    rcases h : f a with _ | b
    · simp only [List.findSome?_cons, h, Option.none_bind]
      exact ih
    · simp only [List.findSome?_cons, h, Option.some_bind]
      rcases hgb : g b with _ | c
      · simp only [hgb]
        rcases hg with hg | hg
        · symm
          rw [List.findSome?_eq_none_iff]
          intro x hx
          rcases hfx : f x with _ | bx <;> simp [hfx, hg]
        · have h2 := hg b
          rw [hgb] at h2
          simp at h2
      · simp only [hgb]

/-- Membership in an if-then-else list with an empty else branch. -/
lemma mem_ite_list {α : Type} {c : Prop} [Decidable c] {x : α} {l : List α}
    (h : x ∈ if c then l else []) : x ∈ l := by
  split at h
  · exact h
  · simp at h

/-- Every `%d` candidate's rest is a suffix of the input. -/
lemma dayAlt_suffix (d : List Char) : ∀ p ∈ dayAlt d, p.2 <:+ d := by
  intro p hp
  rcases d with _ | ⟨c1, d1⟩
  · simp [dayAlt] at hp
  · rcases d1 with _ | ⟨c2, d2⟩
    · simp only [dayAlt, List.nil_append] at hp
      rcases List.mem_singleton.mp (mem_ite_list hp) with rfl
      exact List.nil_suffix
    · simp only [dayAlt] at hp
      rcases List.mem_append.mp hp with h | h
      · rcases List.mem_append.mp h with h | h
        · rcases List.mem_append.mp h with h | h
          · rcases List.mem_singleton.mp (mem_ite_list h) with rfl
            exact List.drop_suffix 2 (c1 :: c2 :: d2)
          · rcases List.mem_singleton.mp (mem_ite_list h) with rfl
            exact List.drop_suffix 2 (c1 :: c2 :: d2)
        · rcases List.mem_singleton.mp (mem_ite_list h) with rfl
          exact List.drop_suffix 2 (c1 :: c2 :: d2)
      · rcases List.mem_singleton.mp (mem_ite_list h) with rfl
        exact List.drop_suffix 1 (c1 :: c2 :: d2)

/-- Every `%m` candidate's rest is a suffix of the input. -/
lemma monthAlt_suffix (d : List Char) : ∀ p ∈ monthAlt d, p.2 <:+ d := by
  intro p hp
  rcases d with _ | ⟨c1, d1⟩
  · simp [monthAlt] at hp
  · rcases d1 with _ | ⟨c2, d2⟩
    · simp only [monthAlt, List.nil_append] at hp
      rcases List.mem_singleton.mp (mem_ite_list hp) with rfl
      exact List.nil_suffix
    · simp only [monthAlt] at hp
      rcases List.mem_append.mp hp with h | h
      · rcases List.mem_append.mp h with h | h
        · rcases List.mem_singleton.mp (mem_ite_list h) with rfl
          exact List.drop_suffix 2 (c1 :: c2 :: d2)
        · rcases List.mem_singleton.mp (mem_ite_list h) with rfl
          exact List.drop_suffix 2 (c1 :: c2 :: d2)
      · rcases List.mem_singleton.mp (mem_ite_list h) with rfl
        exact List.drop_suffix 1 (c1 :: c2 :: d2)

/-- The `%Y` rest is a suffix of the input. -/
lemma year4_suffix (l : List Char) (y : Nat) (r : List Char) (h : year4 l = some (y, r)) :
    r <:+ l := by
  rcases l with _ | ⟨a, _ | ⟨b, _ | ⟨c, _ | ⟨d, r0⟩⟩⟩⟩
  · simp [year4] at h
  · simp [year4] at h
  · simp [year4] at h
  · simp [year4] at h
  · simp only [year4] at h
    split_ifs at h
    simp only [Option.some.injEq, Prod.mk.injEq] at h
    obtain ⟨h1, h2⟩ := h
    rw [← h2]
    exact List.drop_suffix 4 (a :: b :: c :: d :: r0)

/-- Appending `' ' :: t` does not change the `%d` candidates (`' '` fails
every character-class test of the alternation); it only extends each
candidate's rest. -/
lemma dayAlt_append (d t : List Char) :
    dayAlt (d ++ ' ' :: t) = (dayAlt d).map fun p => (p.1, p.2 ++ ' ' :: t) := by
  rcases d with _ | ⟨c1, d1⟩
  · rcases t with _ | ⟨x, t2⟩ <;> simp [dayAlt]
  · rcases d1 with _ | ⟨c2, d2⟩
    · simp only [List.cons_append, List.nil_append, dayAlt]
      split_ifs <;> simp_all
    · simp only [List.cons_append, dayAlt]
      split_ifs <;> simp

/-- Appending `' ' :: t` does not change the `%m` candidates. -/
lemma monthAlt_append (d t : List Char) :
    monthAlt (d ++ ' ' :: t) = (monthAlt d).map fun p => (p.1, p.2 ++ ' ' :: t) := by
  rcases d with _ | ⟨c1, d1⟩
  · rcases t with _ | ⟨x, t2⟩ <;> simp [monthAlt]
  · rcases d1 with _ | ⟨c2, d2⟩
    · simp only [List.cons_append, List.nil_append, monthAlt]
      split_ifs <;> simp_all
    · simp only [List.cons_append, monthAlt]
      split_ifs <;> simp

/-- Appending `' ' :: t` does not change the `%Y` match. -/
lemma year4_append (l t : List Char) :
    year4 (l ++ ' ' :: t) = (year4 l).map fun p => (p.1, p.2 ++ ' ' :: t) := by
  rcases l with _ | ⟨a, _ | ⟨b, _ | ⟨c, _ | ⟨d, r0⟩⟩⟩⟩
  · rcases t with _ | ⟨x1, _ | ⟨x2, _ | ⟨x3, t3⟩⟩⟩ <;> simp [year4]
  · rcases t with _ | ⟨x1, _ | ⟨x2, t2⟩⟩ <;> simp [year4]
  · rcases t with _ | ⟨x1, t1⟩ <;> simp [year4]
  · simp [year4]
  · simp only [List.cons_append, year4]
    split_ifs <;> simp

/-- The year-and-time stage splits at the literal space: its date fields
come from `dateYearTail` on the date remainder alone. -/
lemma dmyTail_split (dd mm : Nat) (r4 t : List Char) (h : ' ' ∉ r4) :
    dmyTail dd mm (r4 ++ ' ' :: t) =
      (dateYearTail dd mm r4).bind fun v =>
        (parseHM t).map fun hm => (⟨v.2.2, v.2.1, v.1, hm.1, hm.2⟩ : DateTime) := by
  unfold dmyTail dateYearTail
  rw [year4_append]
  rcases hy : year4 r4 with _ | ⟨y, r5⟩
  · simp [hy]
  · simp only [hy, Option.map_some]
    rcases r5 with _ | ⟨c5, r5'⟩
    · simp
    · have hs := year4_suffix r4 y (c5 :: r5') hy
      have hc5 : c5 ≠ ' ' := by
        intro he
        exact h (hs.subset (by simp [he]))
      simp [hc5]

/-- The month stage splits at the literal space. -/
lemma dmTail_split (dd : Nat) (r2 t : List Char) (h : ' ' ∉ r2) :
    dmTail dd (r2 ++ ' ' :: t) =
      (dateMonthTail dd r2).bind fun v =>
        (parseHM t).map fun hm => (⟨v.2.2, v.2.1, v.1, hm.1, hm.2⟩ : DateTime) := by
  have hg : (∀ v : Nat × Nat × Nat,
        ((parseHM t).map fun hm => (⟨v.2.2, v.2.1, v.1, hm.1, hm.2⟩ : DateTime)) = none) ∨
      ∀ v : Nat × Nat × Nat,
        (((parseHM t).map fun hm => (⟨v.2.2, v.2.1, v.1, hm.1, hm.2⟩ : DateTime)).isSome = true) := by
    rcases hpm : parseHM t with _ | hm
    · exact Or.inl fun v => by simp [hpm]
    · exact Or.inr fun v => by simp [hpm]
  unfold dmTail dateMonthTail
  rw [monthAlt_append, List.findSome?_map, findSome?_bind_of _ _ _ hg]
  apply findSome?_congr
  intro q hq
  rcases hq2 : q.2 with _ | ⟨c2, r4⟩
  · simp [Function.comp_apply, hq2]
  · simp only [Function.comp_apply, hq2, List.cons_append]
    by_cases hc2 : c2 = '.'
    · subst hc2
      simp only [if_pos]
      refine dmyTail_split dd q.1 r4 t ?_
      intro hsp
      apply h
      have hsuf := monthAlt_suffix r2 q hq
      rw [hq2] at hsuf
      exact hsuf.subset (List.mem_cons_of_mem _ hsp)
    · simp [hc2]

/-- The full `%d.%m.%Y %H:%M` match splits at the literal space: its date
fields come from `dateOnly` on the date part alone, its time from the time
part alone. -/
lemma parseDMYHM_split (d t : List Char) (hd : ' ' ∉ d) :
    parseDMYHM (d ++ ' ' :: t) =
      (dateOnly d).bind fun v =>
        (parseHM t).map fun hm => (⟨v.2.2, v.2.1, v.1, hm.1, hm.2⟩ : DateTime) := by
  have hg : (∀ v : Nat × Nat × Nat,
        ((parseHM t).map fun hm => (⟨v.2.2, v.2.1, v.1, hm.1, hm.2⟩ : DateTime)) = none) ∨
      ∀ v : Nat × Nat × Nat,
        (((parseHM t).map fun hm => (⟨v.2.2, v.2.1, v.1, hm.1, hm.2⟩ : DateTime)).isSome = true) := by
    rcases hpm : parseHM t with _ | hm
    · exact Or.inl fun v => by simp [hpm]
    · exact Or.inr fun v => by simp [hpm]
  unfold parseDMYHM dateOnly
  rw [dayAlt_append, List.findSome?_map, findSome?_bind_of _ _ _ hg]
  apply findSome?_congr
  intro p hp
  rcases hp2 : p.2 with _ | ⟨c1, r2⟩
  · simp [Function.comp_apply, hp2]
  · simp only [Function.comp_apply, hp2, List.cons_append]
    by_cases hc1 : c1 = '.'
    · subst hc1
      simp only [if_pos]
      refine dmTail_split p.1 r2 t ?_
      intro hsp
      apply hd
      have hsuf := dayAlt_suffix d p hp
      rw [hp2] at hsuf
      exact hsuf.subset (List.mem_cons_of_mem _ hsp)
    · simp [hc1]

/-- A successful `strptime` on `date ++ " " ++ time` determines its date
fields from the date part alone and its time fields from the time part. -/
lemma strptime_split (d t : List Char) (hd : ' ' ∉ d) (dt : DateTime)
    (h : strptimeDMYHM (d ++ ' ' :: t) = some dt) :
    dateOnly d = some (dt.day, dt.month, dt.year) ∧ parseHM t = some (dt.hour, dt.minute) := by
  unfold strptimeDMYHM at h
  split at h
  next dt0 hp =>
    split_ifs at h
    have hdt : dt0 = dt := Option.some.inj h
    subst hdt
    rw [parseDMYHM_split d t hd] at hp
    rcases hdo : dateOnly d with _ | v <;> rw [hdo] at hp
    · simp at hp
    · rcases hpm : parseHM t with _ | hm <;> rw [hpm] at hp
      · simp at hp
      · simp at hp
        subst hp
        simp
  next hp => simp at h

/-- The date group captured by a successful header match consists of
digit-or-dot characters only (it comes from `takeWhile isDigitDot`); in
particular it contains no space. -/
lemma matchHeaderAt_space_free (l dg tg : List Char) (h : matchHeaderAt l = some (dg, tg)) :
    ' ' ∉ dg := by
  unfold matchHeaderAt at h
  split at h
  next => simp at h
  next l1 hdl =>
    unfold headerAfterLit at h
    split_ifs at h with hdg
    split at h
    next c0 l3 hdrop =>
      split_ifs at h
      split at h
      next a b c d e l4 htail =>
        split_ifs at h
        simp only [Option.some.injEq, Prod.mk.injEq] at h
        intro hsp
        have hmem := List.mem_takeWhile_imp (p := isDigitDot) (h.1 ▸ hsp)
        simp [isDigitDot, isDigitC] at hmem
      next htail => simp at h
    next hdrop => simp at h

/-- The date group of a located header contains no space. -/
lemma headerSearch_space_free (l : List Char) (dg tg : List Char)
    (h : headerSearch l = some (dg, tg)) : ' ' ∉ dg := by
  induction l with
  | nil => simp [headerSearch] at h
  | cons c t ih =>
    rw [headerSearch] at h
    rcases hm : matchHeaderAt (c :: t) with _ | r <;> rw [hm] at h
    · exact ih h
    · rcases Option.some.inj h with rfl
      exact matchHeaderAt_space_free (c :: t) dg tg hm

/-- Every message of a successful `buildMessages` owes its timestamp to the
per-message `strptime` on the shared conversation date. -/
lemma buildMessages_timestamp (d : List Char) :
    ∀ rs ms, buildMessages d rs = some ms → ∀ m ∈ ms,
      ∃ r : RawMsg, strptimeDMYHM (d ++ ' ' :: r.time) = some m.timestamp := by
  intro rs
  induction rs with
  | nil =>
    intro ms h m hm
    simp [buildMessages] at h
    subst h
    simp at hm
  | cons r rs ih =>
    intro ms h m hm
    simp only [buildMessages] at h
    rcases h1 : strptimeDMYHM (d ++ ' ' :: r.time) with _ | dt <;> rw [h1] at h
    · exact absurd h (by simp)
    · rcases h2 : buildMessages d rs with _ | ms0 <;> rw [h2] at h
      · exact absurd h (by simp)
      · rcases Option.some.inj h with rfl
        rcases List.mem_cons.mp hm with rfl | hm0
        · exact ⟨r, h1⟩
        · exact ih ms0 h2 m hm0

/-! ### Digit-character facts -/

lemma digCh_cases (n : Nat) :
    digCh n = '0' ∨ digCh n = '1' ∨ digCh n = '2' ∨ digCh n = '3' ∨ digCh n = '4' ∨
    digCh n = '5' ∨ digCh n = '6' ∨ digCh n = '7' ∨ digCh n = '8' ∨ digCh n = '9' := by
  unfold digCh
  have h : n % 10 < 10 := Nat.mod_lt n (by norm_num)
  set j := n % 10 with hj
  interval_cases j <;> simp

@[simp] lemma isDigitC_digCh (n : Nat) : isDigitC (digCh n) = true := by
  rcases digCh_cases n with h | h | h | h | h | h | h | h | h | h <;> rw [h] <;> decide

@[simp] lemma isSpace_digCh (n : Nat) : isSpace (digCh n) = false := by
  rcases digCh_cases n with h | h | h | h | h | h | h | h | h | h <;> rw [h] <;> decide

lemma digCh_ne_colon (n : Nat) : digCh n ≠ ':' := by
  rcases digCh_cases n with h | h | h | h | h | h | h | h | h | h <;> rw [h] <;> decide

lemma digCh_ne_newline (n : Nat) : digCh n ≠ '\n' := by
  rcases digCh_cases n with h | h | h | h | h | h | h | h | h | h <;> rw [h] <;> decide

@[simp] lemma isDigitDot_digCh (n : Nat) : isDigitDot (digCh n) = true := by
  simp [isDigitDot]

lemma digVal_digCh (n : Nat) : digVal (digCh n) = n % 10 := by
  unfold digCh
  have h : n % 10 < 10 := Nat.mod_lt n (by norm_num)
  set j := n % 10 with hj
  interval_cases j <;> decide

lemma digCh_ne_zero (n : Nat) (h : n % 10 ≠ 0) : digCh n ≠ '0' := by
  unfold digCh
  have h10 : n % 10 < 10 := Nat.mod_lt n (by norm_num)
  set j := n % 10 with hj
  interval_cases j <;> simp_all

/-! ### takeWhile and drop helpers -/

/-- `takeWhile` over an all-true prefix stops exactly at the first failing
character (or at the end of the string). -/
lemma takeWhile_append_of (p : Char → Bool) (xs ys : List Char)
    (hxs : ∀ c ∈ xs, p c = true)
    (hys : match ys with | [] => True | y :: _ => p y = false) :
    (xs ++ ys).takeWhile p = xs := by
  induction xs with
  | nil =>
    rcases ys with _ | ⟨y, ys⟩
    · rfl
    · simp_all [List.takeWhile]
  | cons x xs ih =>
    have hx := hxs x (List.mem_cons_self x xs)
    simp [List.takeWhile, hx, ih fun c hc => hxs c (List.mem_cons_of_mem x hc)]

/-! ### Scan infrastructure: the fuelled `finditer` is fuel-irrelevant -/

lemma contStar_rest_le (fuel : Nat) : ∀ l, (contStar fuel l).2.length ≤ l.length := by
  induction fuel with
  | zero =>
    intro l
    simp [contStar]
  | succ f ih =>
    intro l
    rcases l with _ | ⟨c, t⟩
    · simp [contStar]
    · simp only [contStar]
      split_ifs
      · simp
      · have hle := ih (t.drop (t.takeWhile (fun x => x ≠ '\n')).length)
        simp only [List.length_drop] at hle
        simp only [List.length_cons]
        omega
      · simp

lemma matchMsgAt_length (l : List Char) (r : RawMsg) (rest : List Char)
    (h : matchMsgAt l = some (r, rest)) : rest.length < l.length := by
  rcases l with _ | ⟨x1, _ | ⟨x2, _ | ⟨x3, _ | ⟨x4, _ | ⟨x5, rest0⟩⟩⟩⟩⟩
  · simp [matchMsgAt] at h
  · simp [matchMsgAt] at h
  · simp [matchMsgAt] at h
  · simp [matchMsgAt] at h
  · simp [matchMsgAt] at h
  · unfold matchMsgAt at h
    dsimp only at h
    split at h
    next =>
      split at h
      next => simp at h
      next =>
        split at h
        next c1 l2 heq1 =>
          split at h
          next =>
            split at h
            next => simp at h
            next =>
              split at h
              next => simp at h
              next =>
                split at h
                next heq2 =>
                  split at h
                  next =>
                    simp only [Option.some.injEq, Prod.mk.injEq] at h
                    simp [← h.2]
                  next => simp at h
                next x l3 heq2 =>
                  simp only [Option.some.injEq, Prod.mk.injEq] at h
                  have e1 : (List.drop (List.takeWhile (fun c => c ≠ ':')
                      (List.drop (List.takeWhile isSpace rest0).length rest0)).length
                      (List.drop (List.takeWhile isSpace rest0).length rest0)).length
                      = (c1 :: l2).length := by rw [heq1]
                  have e2 : (List.drop (List.takeWhile isSpace l2).length l2).length
                      = (x :: l3).length := by rw [heq2]
                  have e3 := contStar_rest_le (x :: l3).length
                    ((x :: l3).drop ((x :: l3).takeWhile (fun c => c ≠ '\n')).length)
                  rw [← h.2]
                  simp only [List.length_drop, List.length_cons] at e1 e2 e3 ⊢
                  omega
          next => simp at h
        next heq1 => simp at h
    next => simp at h

lemma scanMessages_nil (fuel : Nat) : scanMessages fuel [] = [] := by
  cases fuel <;> simp [scanMessages, matchMsgAt]

lemma scanMessages_irrel (f1 : Nat) : ∀ f2 l, l.length ≤ f1 → l.length ≤ f2 →
    scanMessages f1 l = scanMessages f2 l := by
  induction f1 with
  | zero =>
    intro f2 l h1 h2
    have hl : l = [] := by cases l <;> simp_all
    subst hl
    rw [scanMessages_nil, scanMessages_nil]
  | succ f ih =>
    intro f2 l h1 h2
    rcases l with _ | ⟨c, t⟩
    · rw [scanMessages_nil, scanMessages_nil]
    · rcases f2 with _ | f2
      · simp at h2
      · simp only [scanMessages]
        rcases hm : matchMsgAt (c :: t) with _ | ⟨m, rest⟩
        · simp only [List.length_cons] at h1 h2
          exact ih f2 t (by omega) (by omega)
        · have hlen := matchMsgAt_length (c :: t) m rest hm
          simp only [List.length_cons] at h1 h2 hlen
          exact congrArg (m :: ·) (ih f2 rest (by omega) (by omega))

lemma scanMessages_eq_msgScan (fuel : Nat) (l : List Char) (h : l.length ≤ fuel) :
    scanMessages fuel l = msgScan l :=
  scanMessages_irrel fuel l.length l h le_rfl

lemma msgScan_cons_fail {c : Char} {t : List Char} (h : matchMsgAt (c :: t) = none) :
    msgScan (c :: t) = msgScan t := by
  show scanMessages (c :: t).length (c :: t) = _
  simp only [List.length_cons, scanMessages, h]
  rfl

lemma msgScan_match {l : List Char} {m : RawMsg} {rest : List Char}
    (h : matchMsgAt l = some (m, rest)) :
    msgScan l = m :: msgScan rest := by
  have hlen := matchMsgAt_length l m rest h
  obtain ⟨k, hk⟩ : ∃ k, l.length = k + 1 := ⟨l.length - 1, by omega⟩
  show scanMessages l.length l = _
  rw [hk]
  simp only [scanMessages, h]
  exact congrArg (m :: ·) (scanMessages_eq_msgScan k rest (by omega))

/-! ### Positions where the message regex cannot match -/

lemma matchMsgAt_nondigit (c : Char) (l : List Char) (h : isDigitC c = false) :
    matchMsgAt (c :: l) = none := by
  rcases l with _ | ⟨b, _ | ⟨x, _ | ⟨d, _ | ⟨e, r⟩⟩⟩⟩ <;> simp [matchMsgAt, h]

lemma matchMsgAt_nondigit2 (a c : Char) (l : List Char) (h : isDigitC c = false) :
    matchMsgAt (a :: c :: l) = none := by
  rcases l with _ | ⟨x, _ | ⟨d, _ | ⟨e, r⟩⟩⟩ <;> simp [matchMsgAt, h]

lemma matchMsgAt_noncolon3 (a b c : Char) (l : List Char) (h : c ≠ ':') :
    matchMsgAt (a :: b :: c :: l) = none := by
  rcases l with _ | ⟨d, _ | ⟨e, r⟩⟩ <;> simp [matchMsgAt, h]

/-- At the header's start time `HH:MM - HH:MM`, the sender run `[^:]+` ends
at the end time's colon, which is followed by a digit instead of the
mandatory whitespace, so the attempt fails. -/
lemma matchMsgAt_headerTime (a b c d e1 e2 e3 e4 : Char) (r : List Char)
    (ha : isDigitC a = true) (hb : isDigitC b = true) (hc : isDigitC c = true)
    (hd : isDigitC d = true) (he1 : e1 ≠ ':') (he2 : e2 ≠ ':') (he3 : isSpace e3 = false) :
    matchMsgAt
      (a :: b :: ':' :: c :: d :: ' ' :: '-' :: ' ' :: e1 :: e2 :: ':' :: e3 :: e4 :: r)
      = none := by
  simp [matchMsgAt, List.takeWhile, ha, hb, hc, hd, he1, he2, he3]

/-- At the header's end time, the whitespace run `\n\n` is followed either
by the end of the text or by the first message line; in both cases the
attempt fails (no colon-plus-whitespace is reachable). -/
lemma matchMsgAt_endTime (a b c d : Char) (rest : List Char)
    (ha : isDigitC a = true) (hb : isDigitC b = true) (hc : isDigitC c = true)
    (hd : isDigitC d = true)
    (hrest : rest = [] ∨
      ∃ g1 g2 g3 g4 r2, rest = digCh g1 :: digCh g2 :: ':' :: digCh g3 :: digCh g4 :: r2) :
    matchMsgAt (a :: b :: ':' :: c :: d :: '\n' :: '\n' :: rest) = none := by
  rcases hrest with rfl | ⟨g1, g2, g3, g4, r2, rfl⟩
  · simp [matchMsgAt, List.takeWhile, ha, hb, hc, hd]
  · simp [matchMsgAt, List.takeWhile, ha, hb, hc, hd,
      digCh_ne_colon g1, digCh_ne_colon g2]

/-- The scan finds no message match at any position inside a rendered
header: `finditer` walks straight through to the message region. -/
lemma msgScan_header (day mon yr hh mm eh em : Nat) (rest : List Char)
    (hrest : rest = [] ∨
      ∃ g1 g2 g3 g4 r2, rest = digCh g1 :: digCh g2 :: ':' :: digCh g3 :: digCh g4 :: r2) :
    msgScan (renderHeader day mon yr hh mm eh em ++ rest) = msgScan rest := by
  rw [show renderHeader day mon yr hh mm eh em ++ rest =
      'D' :: 'a' :: 't' :: 'e' :: '/' :: 't' :: 'i' :: 'm' :: 'e' :: ':' :: ' ' ::
      digCh (day / 10) :: digCh (day % 10) :: '.' ::
      digCh (mon / 10) :: digCh (mon % 10) :: '.' ::
      digCh (yr / 1000) :: digCh (yr / 100) :: digCh (yr / 10) :: digCh (yr % 10) ::
      ',' :: ' ' ::
      digCh (hh / 10) :: digCh (hh % 10) :: ':' :: digCh (mm / 10) :: digCh (mm % 10) ::
      ' ' :: '-' :: ' ' ::
      digCh (eh / 10) :: digCh (eh % 10) :: ':' :: digCh (em / 10) :: digCh (em % 10) ::
      '\n' :: '\n' :: rest from rfl]
  rw [msgScan_cons_fail (matchMsgAt_nondigit 'D' _ (by decide)),
      msgScan_cons_fail (matchMsgAt_nondigit 'a' _ (by decide)),
      msgScan_cons_fail (matchMsgAt_nondigit 't' _ (by decide)),
      msgScan_cons_fail (matchMsgAt_nondigit 'e' _ (by decide)),
      msgScan_cons_fail (matchMsgAt_nondigit '/' _ (by decide)),
      msgScan_cons_fail (matchMsgAt_nondigit 't' _ (by decide)),
      msgScan_cons_fail (matchMsgAt_nondigit 'i' _ (by decide)),
      msgScan_cons_fail (matchMsgAt_nondigit 'm' _ (by decide)),
      msgScan_cons_fail (matchMsgAt_nondigit 'e' _ (by decide)),
      msgScan_cons_fail (matchMsgAt_nondigit ':' _ (by decide)),
      msgScan_cons_fail (matchMsgAt_nondigit ' ' _ (by decide)),
      msgScan_cons_fail (matchMsgAt_noncolon3 _ _ '.' _ (by decide)),
      msgScan_cons_fail (matchMsgAt_nondigit2 _ '.' _ (by decide)),
      msgScan_cons_fail (matchMsgAt_nondigit '.' _ (by decide)),
      msgScan_cons_fail (matchMsgAt_noncolon3 _ _ '.' _ (by decide)),
      msgScan_cons_fail (matchMsgAt_nondigit2 _ '.' _ (by decide)),
      msgScan_cons_fail (matchMsgAt_nondigit '.' _ (by decide)),
      msgScan_cons_fail (matchMsgAt_noncolon3 _ _ (digCh (yr / 10)) _ (digCh_ne_colon _)),
      msgScan_cons_fail (matchMsgAt_noncolon3 _ _ (digCh (yr % 10)) _ (digCh_ne_colon _)),
      msgScan_cons_fail (matchMsgAt_noncolon3 _ _ ',' _ (by decide)),
      msgScan_cons_fail (matchMsgAt_nondigit2 _ ',' _ (by decide)),
      msgScan_cons_fail (matchMsgAt_nondigit ',' _ (by decide)),
      msgScan_cons_fail (matchMsgAt_nondigit ' ' _ (by decide)),
      msgScan_cons_fail (matchMsgAt_headerTime (digCh (hh / 10)) (digCh (hh % 10))
        (digCh (mm / 10)) (digCh (mm % 10)) (digCh (eh / 10)) (digCh (eh % 10))
        (digCh (em / 10)) (digCh (em % 10)) ('\n' :: '\n' :: rest)
        (isDigitC_digCh _) (isDigitC_digCh _) (isDigitC_digCh _) (isDigitC_digCh _)
        (digCh_ne_colon _) (digCh_ne_colon _) (isSpace_digCh _)),
      msgScan_cons_fail (matchMsgAt_nondigit2 _ ':' _ (by decide)),
      msgScan_cons_fail (matchMsgAt_nondigit ':' _ (by decide)),
      msgScan_cons_fail (matchMsgAt_noncolon3 _ _ ' ' _ (by decide)),
      msgScan_cons_fail (matchMsgAt_nondigit2 _ ' ' _ (by decide)),
      msgScan_cons_fail (matchMsgAt_nondigit ' ' _ (by decide)),
      msgScan_cons_fail (matchMsgAt_nondigit '-' _ (by decide)),
      msgScan_cons_fail (matchMsgAt_nondigit ' ' _ (by decide)),
      msgScan_cons_fail (matchMsgAt_endTime (digCh (eh / 10)) (digCh (eh % 10))
        (digCh (em / 10)) (digCh (em % 10)) rest
        (isDigitC_digCh _) (isDigitC_digCh _) (isDigitC_digCh _) (isDigitC_digCh _) hrest),
      msgScan_cons_fail (matchMsgAt_nondigit2 _ ':' _ (by decide)),
      msgScan_cons_fail (matchMsgAt_nondigit ':' _ (by decide)),
      msgScan_cons_fail (matchMsgAt_noncolon3 _ _ '\n' _ (by decide)),
      msgScan_cons_fail (matchMsgAt_nondigit2 _ '\n' _ (by decide)),
      msgScan_cons_fail (matchMsgAt_nondigit '\n' _ (by decide)),
      msgScan_cons_fail (matchMsgAt_nondigit '\n' _ (by decide))]

/-- A line that does not itself begin with the `\d\d:\d\d` token still does
not begin with it when a newline and more text follow (none of the token's
characters can be a newline). -/
lemma startsDD_append_nl (l δ : List Char) (h : startsDD l = false) :
    startsDD (l ++ '\n' :: δ) = false := by
  rcases l with _ | ⟨a, _ | ⟨b, _ | ⟨c, _ | ⟨d, _ | ⟨e, r⟩⟩⟩⟩⟩
  · rcases δ with _ | ⟨x1, _ | ⟨x2, _ | ⟨x3, _ | ⟨x4, δ2⟩⟩⟩⟩ <;> simp [startsDD]
  · rcases δ with _ | ⟨x1, _ | ⟨x2, _ | ⟨x3, δ2⟩⟩⟩ <;> simp [startsDD]
  · rcases δ with _ | ⟨x1, _ | ⟨x2, δ2⟩⟩ <;> simp [startsDD]
  · rcases δ with _ | ⟨x1, δ2⟩ <;> simp [startsDD]
  · simp [startsDD]
  · simpa [startsDD] using h

lemma joinR_cons (l : List Char) (more : List (List Char)) :
    joinR (l :: more) = '\n' :: (l ++ joinR more) := by
  simp [joinR]

/-- The continuation star consumes exactly the rendered continuation lines
and stops at the boundary (the next message line or the end of the text). -/
lemma contStar_render (more : List (List Char)) (bnd : List Char) (fuel : Nat)
    (hfuel : (joinR more).length ≤ fuel)
    (hmore : ∀ l ∈ more, '\n' ∉ l ∧ startsDD l = false)
    (hbnd : bnd = [] ∨
      ∃ g1 g2 g3 g4 r2,
        bnd = '\n' :: digCh g1 :: digCh g2 :: ':' :: digCh g3 :: digCh g4 :: r2) :
    contStar fuel (joinR more ++ bnd) = (joinR more, bnd) := by
  induction more generalizing fuel with
  | nil =>
    rcases hbnd with rfl | ⟨g1, g2, g3, g4, r2, rfl⟩
    · cases fuel <;> simp [contStar, joinR]
    · cases fuel <;> simp [contStar, joinR, startsDD]
  | cons l more ih =>
    have hl := hmore l (List.mem_cons_self l more)
    rcases fuel with _ | f
    · rw [joinR_cons] at hfuel
      simp at hfuel
    · have hsDD : startsDD (l ++ (joinR more ++ bnd)) = false := by
        rcases more with _ | ⟨l2, more2⟩
        · rcases hbnd with rfl | ⟨g1, g2, g3, g4, r2, rfl⟩
          · simpa [joinR] using hl.2
          · simpa [joinR] using startsDD_append_nl l _ hl.2
        · rw [joinR_cons, show ('\n' :: (l2 ++ joinR more2)) ++ bnd
              = '\n' :: (l2 ++ joinR more2 ++ bnd) from by simp]
          exact startsDD_append_nl l _ hl.2
      have hline : (l ++ (joinR more ++ bnd)).takeWhile (fun x => x ≠ '\n') = l := by
        apply takeWhile_append_of
        · intro c hc
          simp only [decide_eq_true_eq]
          intro hceq
          exact hl.1 (hceq ▸ hc)
        · rcases more with _ | ⟨l2, more2⟩
          · rcases hbnd with rfl | ⟨g1, g2, g3, g4, r2, rfl⟩
            · simp [joinR]
            · simp [joinR]
          · rw [joinR_cons]
            simp
      have hfuel2 : (joinR more).length ≤ f := by
        rw [joinR_cons] at hfuel
        simp only [List.length_cons, List.length_append] at hfuel
        omega
      rw [joinR_cons, List.cons_append, List.append_assoc]
      simp only [contStar]
      rw [if_pos trivial, if_neg (by simp [hsDD]), hline, List.drop_left,
        ih f hfuel2 (fun l2 hl2 => hmore l2 (List.mem_cons_of_mem _ hl2))]

/-- The message regex matches a rendered well-formed message exactly: the
captures are the time token, the sender and the full content block, and the
scan resumes at the boundary (the newline before the next message line, or
the end of the text). -/
lemma matchMsgAt_renderMsg (m : MsgSpec) (bnd : List Char)
    (hm : MsgWF m)
    (hbnd : bnd = [] ∨
      ∃ g1 g2 g3 g4 r2,
        bnd = '\n' :: digCh g1 :: digCh g2 :: ':' :: digCh g3 :: digCh g4 :: r2) :
    matchMsgAt (renderMsg m ++ bnd) = some (rawOf m, bnd) := by
  obtain ⟨hhh, hmm, hsns, hsc, hl1ns, hl1nl, hmore⟩ := hm
  obtain ⟨s0, s', hs⟩ : ∃ s0 s', m.sender = s0 :: s' := by
    rcases hse : m.sender with _ | ⟨a, b⟩
    · rw [hse] at hsns
      simp [headNonspace] at hsns
    · exact ⟨a, b, rfl⟩
  obtain ⟨x0, x', hx⟩ : ∃ x0 x', m.line1 = x0 :: x' := by
    rcases hli : m.line1 with _ | ⟨a, b⟩
    · rw [hli] at hl1ns
      simp [headNonspace] at hl1ns
    · exact ⟨a, b, rfl⟩
  have hs0 : isSpace s0 = false := by
    rw [hs] at hsns
    simpa [headNonspace] using hsns
  have hx0 : isSpace x0 = false := by
    rw [hx] at hl1ns
    simpa [headNonspace] using hl1ns
  have hw : (' ' :: (m.sender ++ ':' :: ' ' ::
        (x0 :: (x' ++ (joinR m.more ++ bnd))))).takeWhile isSpace = [' '] := by
    rw [hs]
    simp [List.takeWhile_cons, hs0]
  have hr : (m.sender ++ ':' :: ' ' ::
        (x0 :: (x' ++ (joinR m.more ++ bnd)))).takeWhile (fun c => c ≠ ':')
      = m.sender := by
    apply takeWhile_append_of
    · intro c hc
      simp only [decide_eq_true_eq]
      exact (hsc c hc).1
    · simp
  have hdrop1 : (m.sender ++ ':' :: ' ' ::
        (x0 :: (x' ++ (joinR m.more ++ bnd)))).drop m.sender.length
      = ':' :: ' ' :: (x0 :: (x' ++ (joinR m.more ++ bnd))) := List.drop_left _ _
  have hw2 : (' ' :: (x0 :: (x' ++ (joinR m.more ++ bnd)))).takeWhile isSpace
      = [' '] := by
    simp [List.takeWhile_cons, hx0]
  have hseg : (x0 :: (x' ++ (joinR m.more ++ bnd))).takeWhile (fun c => c ≠ '\n')
      = x0 :: x' := by
    rw [show x0 :: (x' ++ (joinR m.more ++ bnd))
        = (x0 :: x') ++ (joinR m.more ++ bnd) from rfl]
    apply takeWhile_append_of
    · intro c hc
      simp only [decide_eq_true_eq]
      intro hceq
      apply hl1nl
      rw [hx]
      exact hceq ▸ hc
    · rcases hmo : m.more with _ | ⟨l2, more2⟩
      · rcases hbnd with rfl | ⟨g1, g2, g3, g4, r2, rfl⟩
        · simp [joinR]
        · simp [joinR]
      · rw [joinR_cons]
        simp
  have hst : contStar (x'.length + ((joinR m.more).length + bnd.length) + 1)
      (joinR m.more ++ bnd) = (joinR m.more, bnd) :=
    contStar_render m.more bnd _ (by omega) hmore hbnd
  have hshape : renderMsg m ++ bnd =
      digCh (m.hh / 10) :: digCh (m.hh % 10) :: ':' :: digCh (m.mm / 10) ::
        digCh (m.mm % 10) ::
        (' ' :: (m.sender ++ ':' :: ' ' ::
          (x0 :: (x' ++ (joinR m.more ++ bnd))))) := by
    simp [renderMsg, renderContent, dd2, hx]
  rw [hshape]
  simp only [matchMsgAt]
  rw [if_pos (by simp [isDigitC_digCh])]
  simp only [hw, List.length_cons, List.length_nil, List.drop_succ_cons,
    List.drop_zero, hr, hdrop1, hw2, hseg]
  simp [hs, rawOf, renderContent, hx, hst]

/-- A rendered nonempty message list starts with the `HH:MM` time token of
its first message. -/
lemma renderMsgs_cons_shape (m2 : MsgSpec) (rest : List MsgSpec) :
    ∃ r2, renderMsgs (m2 :: rest) =
      digCh (m2.hh / 10) :: digCh (m2.hh % 10) :: ':' :: digCh (m2.mm / 10) ::
        digCh (m2.mm % 10) :: r2 := by
  rcases rest with _ | ⟨m3, rest2⟩ <;> exact ⟨_, rfl⟩

/-- `finditer` on the rendered message region yields exactly the raw match
of each message unit, in order. -/
lemma msgScan_renderMsgs (msgs : List MsgSpec) (hwf : ∀ m ∈ msgs, MsgWF m) :
    msgScan (renderMsgs msgs) = msgs.map rawOf := by
  induction msgs with
  | nil => rfl
  | cons m rest ih =>
    rcases rest with _ | ⟨m2, rest2⟩
    · have h := matchMsgAt_renderMsg m [] (hwf m (List.mem_cons_self m _)) (Or.inl rfl)
      rw [List.append_nil] at h
      rw [show renderMsgs [m] = renderMsg m from rfl, msgScan_match h]
      rfl
    · obtain ⟨r2, hr2⟩ := renderMsgs_cons_shape m2 rest2
      have hbnd : ('\n' :: renderMsgs (m2 :: rest2)) = [] ∨
          ∃ g1 g2 g3 g4 r2',
            '\n' :: renderMsgs (m2 :: rest2)
              = '\n' :: digCh g1 :: digCh g2 :: ':' :: digCh g3 :: digCh g4 :: r2' :=
        Or.inr ⟨m2.hh / 10, m2.hh % 10, m2.mm / 10, m2.mm % 10, r2, by rw [hr2]⟩
      have h := matchMsgAt_renderMsg m ('\n' :: renderMsgs (m2 :: rest2))
        (hwf m (List.mem_cons_self m _)) hbnd
      rw [show renderMsgs (m :: m2 :: rest2)
          = renderMsg m ++ '\n' :: renderMsgs (m2 :: rest2) from rfl,
        msgScan_match h,
        msgScan_cons_fail (matchMsgAt_nondigit '\n' _ (by decide)),
        ih (fun x hx => hwf x (List.mem_cons_of_mem _ hx))]
      rfl

/-! ### Value lemmas on rendered transcripts: header match and strptime -/

lemma digCh_ne_space (n : Nat) : digCh n ≠ ' ' := by
  rcases digCh_cases n with h | h | h | h | h | h | h | h | h | h <;> rw [h] <;> decide

lemma daysInMonth_le (y m : Nat) : daysInMonth y m ≤ 31 := by
  unfold daysInMonth
  split_ifs <;> omega

lemma year4_render (yr : Nat) (h : yr ≤ 9999) : year4 (dd4 yr) = some (yr, []) := by
  simp [dd4, year4, digVal_digCh]
  omega

lemma dateYearTail_render (dd mm yr : Nat) (h : yr ≤ 9999) :
    dateYearTail dd mm (dd4 yr) = some (dd, mm, yr) := by
  simp [dateYearTail, year4_render yr h]

lemma dateMonthTail_render (dd mon yr : Nat) (hm1 : 1 ≤ mon) (hm2 : mon ≤ 12)
    (hy : yr ≤ 9999) :
    dateMonthTail dd (dd2 mon ++ '.' :: dd4 yr) = some (dd, mon, yr) := by
  have hy4 : ∀ a b, dateYearTail a b (dd4 yr) = some (a, b, yr) :=
    fun a b => dateYearTail_render a b yr hy
  set Y := dd4 yr with hY
  interval_cases mon <;>
    simp +decide [dateMonthTail, monthAlt, dd2, digCh, List.findSome?_cons, hy4]

lemma dateOnly_render (day mon yr : Nat) (hd1 : 1 ≤ day) (hd2 : day ≤ 31)
    (hm1 : 1 ≤ mon) (hm2 : mon ≤ 12) (hy : yr ≤ 9999) :
    dateOnly (dd2 day ++ '.' :: (dd2 mon ++ '.' :: dd4 yr)) = some (day, mon, yr) := by
  have hmt : ∀ a, dateMonthTail a (dd2 mon ++ '.' :: dd4 yr) = some (a, mon, yr) :=
    fun a => dateMonthTail_render a mon yr hm1 hm2 hy
  set R := dd2 mon ++ '.' :: dd4 yr with hR
  interval_cases day <;>
    simp +decide [dateOnly, dayAlt, dd2, digCh, List.findSome?_cons, hmt]

lemma parseHM_render (hh mm : Nat) (hhh : hh ≤ 23) (hmm : mm ≤ 59) :
    parseHM [digCh (hh / 10), digCh (hh % 10), ':', digCh (mm / 10), digCh (mm % 10)]
      = some (hh, mm) := by
  interval_cases hh <;> interval_cases mm <;> decide

lemma strptime_render (day mon yr hh mm : Nat) (hd1 : 1 ≤ day)
    (hdec : day ≤ daysInMonth yr mon) (hm1 : 1 ≤ mon) (hm2 : mon ≤ 12)
    (hy1 : 1 ≤ yr) (hy2 : yr ≤ 9999) (hhh : hh ≤ 23) (hmm : mm ≤ 59) :
    strptimeDMYHM ((dd2 day ++ '.' :: (dd2 mon ++ '.' :: dd4 yr)) ++ ' ' ::
        [digCh (hh / 10), digCh (hh % 10), ':', digCh (mm / 10), digCh (mm % 10)])
      = some ⟨yr, mon, day, hh, mm⟩ := by
  have hd2 : day ≤ 31 := le_trans hdec (daysInMonth_le yr mon)
  have hdg : ∀ c ∈ dd2 day ++ '.' :: (dd2 mon ++ '.' :: dd4 yr), isDigitDot c = true := by
    intro c hc
    simp [dd2, dd4] at hc
    rcases hc with rfl | rfl | rfl | rfl | rfl | rfl | rfl | rfl | rfl | rfl <;>
      first
        | exact isDigitDot_digCh _
        | decide
  have hnosp : ' ' ∉ dd2 day ++ '.' :: (dd2 mon ++ '.' :: dd4 yr) :=
    fun hsp => absurd (hdg ' ' hsp) (by decide)
  unfold strptimeDMYHM
  rw [parseDMYHM_split _ _ hnosp,
    dateOnly_render day mon yr hd1 hd2 hm1 hm2 hy2,
    parseHM_render hh mm hhh hmm]
  simp [hy1, hdec]

/-- The header regex matches at the start of a rendered header, capturing the
date group `DD.MM.YYYY` and the start time `HH:MM`. -/
lemma matchHeaderAt_render (day mon yr hh mm eh em : Nat) (rest : List Char) :
    matchHeaderAt (renderHeader day mon yr hh mm eh em ++ rest)
      = some (dd2 day ++ '.' :: (dd2 mon ++ '.' :: dd4 yr),
          [digCh (hh / 10), digCh (hh % 10), ':', digCh (mm / 10), digCh (mm % 10)]) := by
  rw [show renderHeader day mon yr hh mm eh em ++ rest =
      'D' :: 'a' :: 't' :: 'e' :: '/' :: 't' :: 'i' :: 'm' :: 'e' :: ':' :: ' ' ::
      digCh (day / 10) :: digCh (day % 10) :: '.' ::
      digCh (mon / 10) :: digCh (mon % 10) :: '.' ::
      digCh (yr / 1000) :: digCh (yr / 100) :: digCh (yr / 10) :: digCh (yr % 10) ::
      ',' :: ' ' ::
      digCh (hh / 10) :: digCh (hh % 10) :: ':' :: digCh (mm / 10) :: digCh (mm % 10) ::
      ' ' :: '-' :: ' ' ::
      digCh (eh / 10) :: digCh (eh % 10) :: ':' :: digCh (em / 10) :: digCh (em % 10) ::
      '\n' :: '\n' :: rest from rfl]
  simp [matchHeaderAt, dropLit, headerAfterLit, List.takeWhile_cons, List.dropWhile_cons,
    dd2, dd4, show isDigitDot '.' = true from rfl, show isDigitDot ',' = false from rfl]

lemma headerSearch_cons (c : Char) (t : List Char) :
    headerSearch (c :: t) =
      match matchHeaderAt (c :: t) with
      | some r => some r
      | none => headerSearch t := rfl

/-- `re.search` on a rendered transcript locates the header at position 0. -/
lemma headerSearch_render (day mon yr hh mm eh em : Nat) (rest : List Char) :
    headerSearch (renderHeader day mon yr hh mm eh em ++ rest)
      = some (dd2 day ++ '.' :: (dd2 mon ++ '.' :: dd4 yr),
          [digCh (hh / 10), digCh (hh % 10), ':', digCh (mm / 10), digCh (mm % 10)]) := by
  have hcons : renderHeader day mon yr hh mm eh em ++ rest =
      'D' :: ('a' :: 't' :: 'e' :: '/' :: 't' :: 'i' :: 'm' :: 'e' :: ':' :: ' ' ::
      digCh (day / 10) :: digCh (day % 10) :: '.' ::
      digCh (mon / 10) :: digCh (mon % 10) :: '.' ::
      digCh (yr / 1000) :: digCh (yr / 100) :: digCh (yr / 10) :: digCh (yr % 10) ::
      ',' :: ' ' ::
      digCh (hh / 10) :: digCh (hh % 10) :: ':' :: digCh (mm / 10) :: digCh (mm % 10) ::
      ' ' :: '-' :: ' ' ::
      digCh (eh / 10) :: digCh (eh % 10) :: ':' :: digCh (em / 10) :: digCh (em % 10) ::
      '\n' :: '\n' :: rest) := rfl
  rw [hcons, headerSearch_cons, ← hcons, matchHeaderAt_render day mon yr hh mm eh em rest]

/-- The message loop on the raw matches of a rendered message list produces
the expected `Message` values. -/
lemma buildMessages_render (day mon yr : Nat) (msgs : List MsgSpec)
    (hd1 : 1 ≤ day) (hdec : day ≤ daysInMonth yr mon)
    (hm1 : 1 ≤ mon) (hm2 : mon ≤ 12) (hy1 : 1 ≤ yr) (hy2 : yr ≤ 9999)
    (hwf : ∀ m ∈ msgs, MsgWF m) :
    buildMessages (dd2 day ++ '.' :: (dd2 mon ++ '.' :: dd4 yr)) (msgs.map rawOf)
      = some (msgs.map (expectedMsg day mon yr)) := by
  induction msgs with
  | nil => rfl
  | cons m rest ih =>
    have hm := hwf m (List.mem_cons_self m rest)
    simp only [List.map_cons, buildMessages,
      show (rawOf m).time = [digCh (m.hh / 10), digCh (m.hh % 10), ':',
        digCh (m.mm / 10), digCh (m.mm % 10)] from rfl,
      strptime_render day mon yr m.hh m.mm hd1 hdec hm1 hm2 hy1 hy2 hm.1 hm.2.1,
      ih (fun x hx => hwf x (List.mem_cons_of_mem _ hx))]
    rfl

/-!
## Claims
-/

/-- **C1** (counterexample): the code's header regex does not require the
`" - HH:MM"` end time: on the input `"Date/time: 10.02.2023, 17:22"` no
header line matching `"Date/time: DD.MM.YYYY, HH:MM - HH:MM"` can be located,
yet the parser succeeds — so the parser does not fail exactly when the
claimed pattern is absent. -/
theorem C1_counterexample :
    (parse_conversation "Date/time: 10.02.2023, 17:22" "awel_chat" "u").isSome = true ∧
    claimHeaderFound ("Date/time: 10.02.2023, 17:22".toList) = false :=
  ⟨by decide, by decide⟩

/-- **C1** (amended): the parser fails exactly when the loose header search
(literal `Date/time:`, optional whitespace, a nonempty digits-and-dots run,
`,`, optional whitespace, `\d\d:\d\d` — no end time required) finds no
match, or the first match's date/start time is rejected by
`strptime`/`datetime` validation, or some matched message's time is not a
valid time of day.  On failure no Conversation is produced (the result is
`none`), and a transcript whose header validates but which has zero message
matches succeeds with an empty message sequence. -/
theorem C1_failure_condition (text source uuid : String) :
    (parse_conversation text source uuid = none ↔
      match headerSearch text.toList with
      | none => True
      | some (dg, tg) =>
        strptimeDMYHM (dg ++ ' ' :: tg) = none ∨
          ∃ r ∈ msgScan text.toList, strptimeDMYHM (dg ++ ' ' :: r.time) = none) ∧
    (∀ dg tg, headerSearch text.toList = some (dg, tg) →
        strptimeDMYHM (dg ++ ' ' :: tg) ≠ none →
        msgScan text.toList = [] →
        ∃ conv, parse_conversation text source uuid = some conv ∧ conv.messages = []) := by
  have hmap : parse_conversation text source uuid = none ↔ parseParts text = none := by
    unfold parse_conversation
    exact Option.map_eq_none'
  constructor
  · rw [hmap]
    unfold parseParts
    rcases h1 : headerSearch text.toList with _ | ⟨dg, tg⟩
    · simp [h1]
    · simp only [h1]
      rcases h2 : strptimeDMYHM (dg ++ ' ' :: tg) with _ | dt <;> simp only [h2]
      · simp
      · rcases h3 : buildMessages dg (msgScan text.toList) with _ | ms <;> simp only [h3]
        · constructor
          · intro _
            exact Or.inr ((buildMessages_eq_none dg _).mp h3)
          · intro _
            trivial
        · constructor
          · intro hx
            exact absurd hx (by simp)
          · rintro (hx | hx)
            · exact absurd hx (by simp)
            · have hn := (buildMessages_eq_none dg _).mpr hx
              rw [h3] at hn
              exact absurd hn (by simp)
  · intro dg tg h1 h2 h3
    rcases hs : strptimeDMYHM (dg ++ ' ' :: tg) with _ | dt
    · exact absurd hs h2
    · refine ⟨{ id := uuid, topic := "Conflict with friends", messages := [],
                raw := text, metadata := ⟨dt, source⟩ }, ?_, rfl⟩
      unfold parse_conversation parseParts
      simp only [h1, hs, h3]
      rfl

/-- Witness for the amended C1: a transcript with a valid header and no
message line parses to a Conversation with an empty message sequence. -/
theorem C1_witness :
    ∃ conv, parse_conversation headerOnlyText "awel_chat" "u" = some conv ∧
      conv.messages = [] :=
  (C1_failure_condition headerOnlyText "awel_chat" "u").2
    ("10.02.2023".toList) ("17:22".toList) (by decide) (by decide) (by decide)

/-- **C2**: parsing the spec's example input yields a Conversation with
Metadata timestamp 2023-02-10T17:22 and exactly the two expected messages in
order — (2023-02-10T17:22, operator, "Hallo!") and (2023-02-10T17:26, user,
"hoi") — for any generated id. -/
theorem C2_example_parse :
    ∀ uuid : String, parse_conversation exampleText "awel_chat" uuid = some (exampleConv uuid) := by
  intro uuid
  have h : parseParts exampleText = some (⟨2023, 2, 10, 17, 22⟩, exampleMessages) := by decide
  unfold parse_conversation
  rw [h]
  rfl

/-- **C3** (counterexample): the claim's message-line grammar — an `HH:MM`
time token, whitespace, a colon-free sender label, a colon, then content —
does not require whitespace after the colon, but the code's message regex is
`(\d{2}:\d{2})\s+([^:]+):\s+(...)`: the `\s+` after the colon is mandatory.
The transcript below has a well-formed header and exactly one line of the
claim's grammar (`"17:22" ++ " " ++ "Anna" ++ ":" ++ "hoi"`, with `"Anna"`
colon-free), yet parsing succeeds with ZERO messages — the unmatched line is
silently dropped, falsifying the claim. -/
theorem C3_counterexample :
    (parse_conversation "Date/time: 10.02.2023, 17:22 - 17:43\n\n17:22 Anna:hoi"
        "awel_chat" "u").map Conversation.messages = some [] ∧
    "Date/time: 10.02.2023, 17:22 - 17:43\n\n17:22 Anna:hoi".toList =
      renderHeader 10 2 2023 17 22 17 43 ++
        ("17:22".toList ++ ' ' :: ("Anna".toList ++ ':' :: "hoi".toList)) ∧
    startsDD "17:22 Anna:hoi".toList = true ∧
    (∀ c ∈ "Anna".toList, c ≠ ':' ∧ c ≠ '\n') :=
  ⟨by decide, by decide, by decide, by decide⟩

/-- **C3** (amended): the sender colon must be followed by whitespace
(rendered canonically as a single space), which the claim's grammar omits.
With that repair the claim holds: for every transcript made of a well-formed
header (`Date/time: DD.MM.YYYY, HH:MM - HH:MM` with a valid calendar date,
start time and any end time), the blank separator line, and any number N of
well-formed message units (an `HH:MM` time token, a space, a colon-free
sender label, a colon, a space, a first content line starting non-whitespace,
and continuation lines not beginning with a new `HH:MM` token), parsing
succeeds and the Conversation holds exactly N messages, one per unit and in
the order the units appear; each message's content is the unit's whole
multi-line block — extending to the next `HH:MM` line or the end of the
text — trimmed of leading and trailing whitespace. -/
theorem C3_message_extraction (day mon yr hh mm eh em : Nat) (msgs : List MsgSpec)
    (source uuid : String)
    (hd1 : 1 ≤ day) (hdec : day ≤ daysInMonth yr mon)
    (hm1 : 1 ≤ mon) (hm2 : mon ≤ 12) (hy1 : 1 ≤ yr) (hy2 : yr ≤ 9999)
    (hhh : hh ≤ 23) (hmm : mm ≤ 59)
    (hwf : ∀ m ∈ msgs, MsgWF m) :
    ∃ conv,
      parse_conversation (String.mk (renderTranscript day mon yr hh mm eh em msgs))
          source uuid = some conv ∧
      conv.messages = msgs.map (expectedMsg day mon yr) ∧
      conv.messages.length = msgs.length := by
  have htext : (String.mk (renderTranscript day mon yr hh mm eh em msgs)).toList
      = renderHeader day mon yr hh mm eh em ++ renderMsgs msgs := rfl
  have hrest : renderMsgs msgs = [] ∨
      ∃ g1 g2 g3 g4 r2, renderMsgs msgs
        = digCh g1 :: digCh g2 :: ':' :: digCh g3 :: digCh g4 :: r2 := by
    rcases msgs with _ | ⟨m2, rest2⟩
    · exact Or.inl rfl
    · obtain ⟨r2, hr2⟩ := renderMsgs_cons_shape m2 rest2
      exact Or.inr ⟨_, _, _, _, r2, hr2⟩
  have hparts : parseParts (String.mk (renderTranscript day mon yr hh mm eh em msgs))
      = some (⟨yr, mon, day, hh, mm⟩, msgs.map (expectedMsg day mon yr)) := by
    unfold parseParts
    simp only [htext, headerSearch_render,
      strptime_render day mon yr hh mm hd1 hdec hm1 hm2 hy1 hy2 hhh hmm,
      msgScan_header day mon yr hh mm eh em (renderMsgs msgs) hrest,
      msgScan_renderMsgs msgs hwf,
      buildMessages_render day mon yr msgs hd1 hdec hm1 hm2 hy1 hy2 hwf]
  refine ⟨{ id := uuid, topic := "Conflict with friends",
            messages := msgs.map (expectedMsg day mon yr),
            raw := String.mk (renderTranscript day mon yr hh mm eh em msgs),
            metadata := { timestamp := ⟨yr, mon, day, hh, mm⟩, source := source } },
          ?_, rfl, by simp⟩
  unfold parse_conversation
  rw [hparts]
  rfl

/-- Witness for C3 at a concrete transcript: header date 10.02.2023, start
17:22, two message units, the first with a continuation line, each
well-formed; the parse yields exactly the two expected messages. -/
theorem C3_witness :
    ((1 ≤ 10 ∧ 10 ≤ daysInMonth 2023 2 ∧ 1 ≤ 2 ∧ 2 ≤ 12 ∧ 1 ≤ 2023 ∧ 2023 ≤ 9999 ∧
        17 ≤ 23 ∧ 22 ≤ 59) ∧ ∀ m ∈ c3msgs, MsgWF m) ∧
    ∃ conv,
      parse_conversation (String.mk (renderTranscript 10 2 2023 17 22 17 43 c3msgs))
          "awel_chat" "u" = some conv ∧
      conv.messages = c3msgs.map (expectedMsg 10 2 2023) ∧
      conv.messages.length = c3msgs.length :=
  ⟨⟨by decide, by intro m hm; fin_cases hm <;> exact ⟨by decide, by decide, by decide,
      by decide, by decide, by decide, by decide⟩⟩,
    C3_message_extraction 10 2 2023 17 22 17 43 c3msgs "awel_chat" "u"
      (by decide) (by decide) (by decide) (by decide) (by decide) (by decide)
      (by decide) (by decide)
      (by intro m hm; fin_cases hm <;> exact ⟨by decide, by decide, by decide,
        by decide, by decide, by decide, by decide⟩)⟩

/-- **C4**: the batch driver in lenient mode returns exactly the
successfully parsed conversations in input order with no placeholder
entries, logs exactly the failing positions, and the output length is the
batch size minus the number of failures; being a total function, it never
raises to the caller. -/
theorem C4_lenient_batch (ids : Nat → String) (texts : List String) :
    (parse_conversation_list false ids texts).1 =
      ((idxFrom 0 texts).filterMap fun p => parse_conversation p.2 "awel_chat" (ids p.1)) ∧
    (parse_conversation_list false ids texts).2 =
      (((idxFrom 0 texts).filter fun p =>
          (parse_conversation p.2 "awel_chat" (ids p.1)).isNone).map fun p => p.1) ∧
    (parse_conversation_list false ids texts).1.length =
      texts.length - (parse_conversation_list false ids texts).2.length := by
  refine ⟨?_, ?_, ?_⟩
  · rw [parse_conversation_list, parseListAux_eq]
  · rw [parse_conversation_list, parseListAux_eq]
  · have := parseListAux_length ids texts 0
    rw [parse_conversation_list]
    omega

/-- **C5** (code bug): the `validate_data` flag has no effect on batch
parsing — the `raise` in `_parse_conversation_list`'s `except` branch is
commented out (line 232), so even in strict mode a failing item is only
logged and skipped; on a one-item malformed batch the strict-mode driver
returns normally (no conversations, index 0 logged) instead of propagating
the failure and halting. -/
theorem C5_strict_mode_ignored :
    (∀ (v w : Bool) (ids : Nat → String) (texts : List String),
        parse_conversation_list v ids texts = parse_conversation_list w ids texts) ∧
    parse_conversation_list true (fun _ => "u") ["no header here"] = ([], [0]) :=
  ⟨fun _ _ _ _ => rfl, by decide⟩

/-- **C6**: a sender label is classified `"operator"` exactly when its
stripped form equals `"Awel"` or `"Awel wachtrij"` and `"user"` otherwise,
and every message the free-text parser produces carries one of these two
roles. -/
theorem C6_role_classification :
    (∀ s, classifyRole s = "operator" ↔
        (stripChars s = "Awel".toList ∨ stripChars s = "Awel wachtrij".toList)) ∧
    (∀ s, classifyRole s ≠ "operator" → classifyRole s = "user") ∧
    (∀ text source uuid conv, parse_conversation text source uuid = some conv →
        ∀ m ∈ conv.messages, m.role = "operator" ∨ m.role = "user") := by
  refine ⟨?_, ?_, ?_⟩
  · intro s
    unfold classifyRole
    split <;> rename_i h <;>
      simp only [Bool.or_eq_true, decide_eq_true_eq] at h
    · exact ⟨fun _ => h, fun _ => rfl⟩
    · constructor
      · intro hx
        exact absurd hx (by decide)
      · intro hx
        exact absurd hx h
  · intro s h
    rcases classifyRole_cases s with h1 | h1
    · exact absurd h1 h
    · exact h1
  · intro text source uuid conv hp m hm
    obtain ⟨r, hr⟩ := parse_messages_roles text source uuid conv hp m hm
    rw [hr]
    exact classifyRole_cases r.sender

/-- Witness for C6 at concrete inputs. -/
theorem C6_witness :
    classifyRole (" Awel wachtrij ".toList) = "operator" ∧
    classifyRole ("Anna".toList) = "user" ∧
    (({ timestamp := ⟨2023, 2, 10, 17, 22⟩, role := "operator",
        content := "Hallo!" } : Message).role = "operator" ∨
     ({ timestamp := ⟨2023, 2, 10, 17, 22⟩, role := "operator",
        content := "Hallo!" } : Message).role = "user") :=
  ⟨(C6_role_classification.1 _).mpr (Or.inr (by decide)),
   C6_role_classification.2.1 _ (by decide),
   C6_role_classification.2.2 exampleText "awel_chat" "u" (exampleConv "u")
     (by decide) _ (by decide)⟩

/-- **C7**: every message of a Conversation produced by the free-text parser
lies on the same calendar date as the Conversation's Metadata timestamp —
message timestamps combine the single header date with the message's own
`HH:MM` time. -/
theorem C7_same_calendar_date (text source uuid : String) (conv : Conversation)
    (hp : parse_conversation text source uuid = some conv) :
    ∀ m ∈ conv.messages,
      m.timestamp.year = conv.metadata.timestamp.year ∧
      m.timestamp.month = conv.metadata.timestamp.month ∧
      m.timestamp.day = conv.metadata.timestamp.day := by
  intro m hm
  unfold parse_conversation at hp
  rcases hq : parseParts text with _ | p <;> rw [hq] at hp
  · exact absurd hp (by simp)
  · rcases Option.some.inj hp with rfl
    unfold parseParts at hq
    split at hq
    next => exact absurd hq (by simp)
    next dg tg h1 =>
      split at hq
      next => exact absurd hq (by simp)
      next dt h2 =>
        split at hq
        next => exact absurd hq (by simp)
        next ms h3 =>
          rcases Option.some.inj hq with rfl
          have hnd : ' ' ∉ dg := headerSearch_space_free text.toList dg tg h1
          have hdr := (strptime_split dg tg hnd dt h2).1
          obtain ⟨r, hrt⟩ := buildMessages_timestamp dg _ ms h3 m (by simpa using hm)
          have hmsg := (strptime_split dg r.time hnd m.timestamp hrt).1
          rw [hdr] at hmsg
          simp only [Option.some.injEq, Prod.mk.injEq] at hmsg
          exact ⟨hmsg.2.2.symm, hmsg.2.1.symm, hmsg.1.symm⟩

/-- Witness for C7 at a concrete parsed conversation and message. -/
theorem C7_witness :
    ({ timestamp := ⟨2023, 2, 10, 17, 26⟩, role := "user",
       content := "hoi" } : Message).timestamp.year
        = (exampleConv "u").metadata.timestamp.year ∧
    ({ timestamp := ⟨2023, 2, 10, 17, 26⟩, role := "user",
       content := "hoi" } : Message).timestamp.month
        = (exampleConv "u").metadata.timestamp.month ∧
    ({ timestamp := ⟨2023, 2, 10, 17, 26⟩, role := "user",
       content := "hoi" } : Message).timestamp.day
        = (exampleConv "u").metadata.timestamp.day :=
  C7_same_calendar_date exampleText "awel_chat" "u" (exampleConv "u") (by decide) _ (by decide)

/-- **C8** (counterexample): two invocations of the parser on the same input
string and source draw distinct `uuid4` identifiers and therefore produce
Conversation values that are not equal. -/
theorem C8_counterexample :
    parse_conversation exampleText "awel_chat" "a" = some (exampleConv "a") ∧
    parse_conversation exampleText "awel_chat" "b" = some (exampleConv "b") ∧
    exampleConv "a" ≠ exampleConv "b" :=
  ⟨by decide, by decide, by decide⟩

/-- **C8** (amended): parsing is a pure function of the input string and
source label up to the freshly generated identifier — two successful
invocations agree on topic, messages, metadata and raw text. -/
theorem C8_deterministic_up_to_id (text source u1 u2 : String) (c1 c2 : Conversation)
    (h1 : parse_conversation text source u1 = some c1)
    (h2 : parse_conversation text source u2 = some c2) :
    c1.topic = c2.topic ∧ c1.messages = c2.messages ∧
      c1.metadata = c2.metadata ∧ c1.raw = c2.raw := by
  unfold parse_conversation at h1 h2
  rcases hp : parseParts text with _ | p <;> rw [hp] at h1 h2
  · exact absurd h1 (by simp)
  · rcases Option.some.inj h1 with rfl
    rcases Option.some.inj h2 with rfl
    exact ⟨rfl, rfl, rfl, rfl⟩

/-- Witness for the amended C8 at concrete inputs. -/
theorem C8_witness :
    (exampleConv "a").topic = (exampleConv "b").topic ∧
    (exampleConv "a").messages = (exampleConv "b").messages ∧
    (exampleConv "a").metadata = (exampleConv "b").metadata ∧
    (exampleConv "a").raw = (exampleConv "b").raw :=
  C8_deterministic_up_to_id exampleText "awel_chat" "a" "b" _ _ (by decide) (by decide)

/-- **C9**: statistics over an empty conversation set return the empty
result (`none`, modelling the empty dict), and any nonempty set yields a
full record — no mean is ever formed over the empty set (the empty case
short-circuits before any division, and the duration mean falls back to 0
on an empty duration list). -/
theorem C9_empty_statistics :
    get_statistics [] = none ∧
    ∀ convs : List Conversation, convs ≠ [] → (get_statistics convs).isSome = true := by
  refine ⟨rfl, ?_⟩
  intro convs h
  rcases convs with _ | ⟨c, cs⟩
  · exact absurd rfl h
  · simp [get_statistics]

/-- Witness for C9 at concrete inputs. -/
theorem C9_witness :
    get_statistics [] = none ∧ (get_statistics [sampleConv2]).isSome = true :=
  ⟨C9_empty_statistics.1, C9_empty_statistics.2 [sampleConv2] (by decide)⟩

/-- **C10**: for a nonempty conversation set the reported mean conversation
duration averages the first-to-last sequence-order delta over exactly the
conversations with at least two messages, and is 0 (not absent) when no
conversation qualifies. -/
theorem C10_duration_mean (convs : List Conversation) (h : convs ≠ []) :
    ∃ s, get_statistics convs = some s ∧
      s.avg_conversation_length_minutes = claimMeanDuration convs := by
  rcases convs with _ | ⟨c, cs⟩
  · exact absurd rfl h
  · have hd := durations_eq (c :: cs)
    refine ⟨_, rfl, ?_⟩
    simp only [get_statistics, claimMeanDuration]
    rw [hd]

/-- Witness for C10: only the two-message conversation (whose messages are
not in chronological order) enters the mean, giving −30 minutes; a
no-qualifier set reports 0. -/
theorem C10_witness :
    (∃ s, get_statistics [sampleConv1, sampleConv2] = some s ∧
        s.avg_conversation_length_minutes = claimMeanDuration [sampleConv1, sampleConv2]) ∧
    claimMeanDuration [sampleConv1, sampleConv2] = -30 ∧
    claimMeanDuration [sampleConv2] = 0 := by
  refine ⟨C10_duration_mean [sampleConv1, sampleConv2] (by decide), ?_, by rfl⟩
  have h1 : (toMinutes ⟨2023, 2, 10, 9, 30⟩ - toMinutes ⟨2023, 2, 10, 10, 0⟩ : Int) = -30 := by
    decide
  simp only [claimMeanDuration, sampleConv1, sampleConv2, seqDelta, List.filter, List.map]
  norm_num [h1]

end Aicb
